import Mathlib

/-!
Verification of the EasyHg core against its specification.

This file gives a shallow embedding, in Lean 4, of the parts of the
EasyHg source that the checked claims talk about: the domain data model
(src/domain.rs), the snapshot assembler and its parsers and graph merge
(src/hg/mod.rs), the custom-command engine (src/custom_commands.rs), and
the fragment of the interactive session state machine (src/app.rs) that
drives the rebase picker, the rebase continue and abort guards, snapshot
application, and stale detail-fetch discarding.

External effects (process spawns, the filesystem, JSON decoding done by
the serde library, terminal geometry, the wall clock) are modelled as
explicit environment parameters; everything else is translated from the
source. Rust machine integers that matter are kept as Nat with explicit
reductions modulo 2 to the 64th power where wrapping arithmetic occurs.
-/

namespace EasyHg

/-! ## Domain data model (src/domain.rs) -/

/-- Single-letter working-copy file status (src/domain.rs, FileStatus). -/
inductive FileStatus where
  | Modified
  | Added
  | Removed
  | Missing
  | Unknown
  | Ignored
  | Clean
  | Copied
  | Other (c : Char)
deriving Repr, DecidableEq

/-- Translation of FileStatus::from_hg_code: the first character of the
input decides the variant, with the question mark as default for the
empty string (code.chars().next().unwrap_or). -/
def FileStatus.from_hg_code (code : String) : FileStatus :=
  let c := code.data.headD ('?')
  if c = 'M' then .Modified
  else if c = 'A' then .Added
  else if c = 'R' then .Removed
  else if c = '!' then .Missing
  else if c = '?' then .Unknown
  else if c = 'I' then .Ignored
  else if c = 'C' then .Clean
  else if c = ' ' then .Copied
  else .Other c

/-- Translation of FileStatus::code. -/
def FileStatus.code : FileStatus → Char
  | .Modified => 'M'
  | .Added => 'A'
  | .Removed => 'R'
  | .Missing => '!'
  | .Unknown => '?'
  | .Ignored => 'I'
  | .Clean => 'C'
  | .Copied => ' '
  | .Other c => c

/-- FileChange (src/domain.rs). -/
structure FileChange where
  path : String
  status : FileStatus
deriving Repr, DecidableEq

/-- Revision (src/domain.rs). The field graph_pfx models the source
field named graph_prefix. -/
structure Revision where
  rev : Int
  node : String
  desc : String
  user : String
  branch : String
  phase : String
  tags : List String
  bookmarks : List String
  date_unix_secs : Int
  graph_pfx : Option String
deriving Repr, DecidableEq

/-- Bookmark (src/domain.rs). -/
structure Bookmark where
  name : String
  rev : Int
  node : String
  active : Bool
deriving Repr, DecidableEq

/-- ConflictEntry (src/domain.rs). -/
structure ConflictEntry where
  resolved : Bool
  path : String
deriving Repr, DecidableEq

/-- Shelf (src/domain.rs). -/
structure Shelf where
  name : String
  age : Option String
  description : String
deriving Repr, DecidableEq

/-- HgCapabilities (src/domain.rs). -/
structure HgCapabilities where
  version : String
  has_rebase : Bool
  has_histedit : Bool
  has_shelve : Bool
  supports_json_status : Bool
  supports_json_log : Bool
  supports_json_bookmarks : Bool
deriving Repr, DecidableEq

/-- Modelled from the spec: the RebaseState struct is imported from the
domain module and constructed by build_rebase_state in src/hg/mod.rs and
read by src/app.rs, but its declaration is absent from the copy of
domain.rs under src/. Spec section 3: RebaseState holds an in_progress
flag (derived from presence of an on-disk marker) and unresolved,
resolved and total conflict counts (derived from the conflict list).
Field names follow the uses in src/hg/mod.rs and src/app.rs. -/
structure RebaseState where
  in_progress : Bool
  unresolved_conflicts : Nat
  resolved_conflicts : Nat
  total_conflicts : Nat
deriving Repr, DecidableEq

/-- RepoSnapshot, as constructed by src/hg/mod.rs (the copy of domain.rs
under src/ lacks the rebase field that src/hg/mod.rs fills in; the spec
lists a derived rebase state among the snapshot fields). -/
structure RepoSnapshot where
  repo_root : Option String
  branch : Option String
  files : List FileChange
  revisions : List Revision
  bookmarks : List Bookmark
  shelves : List Shelf
  conflicts : List ConflictEntry
  rebase : RebaseState
  capabilities : HgCapabilities
deriving Repr, DecidableEq

end EasyHg

namespace EasyHg

/-! ## Custom-command tokenizer (src/custom_commands.rs) -/

/-- The single-quote character, written by code point to keep string and
character literals free of quote characters. -/
def singleQuote : Char := Char.ofNat 39

/-- Translation of the Rust char::is_whitespace predicate, which tests
the Unicode White_Space property. -/
def rustIsWhitespace (c : Char) : Bool :=
  c = '\u0009' || c = '\u000A' || c = '\u000B' || c = '\u000C' || c = '\u000D' ||
  c = ' ' || c = '\u0085' || c = '\u00A0' || c = '\u1680' ||
  (0x2000 ≤ c.toNat && c.toNat ≤ 0x200A) ||
  c = '\u2028' || c = '\u2029' || c = '\u202F' || c = '\u205F' || c = '\u3000'

/-- QuoteMode from parse_command_parts. -/
inductive QuoteMode where
  | Single
  | Double
deriving Repr, DecidableEq

/-- Loop body of parse_command_parts: one character consumed per step,
with the current quote mode, the token under construction, and the
finished tokens threaded through. The source has an inner peek loop
skipping the whitespace run after a token boundary; that loop is omitted
here because it is observationally the identity: each skipped whitespace
character would otherwise be consumed by this same whitespace branch
with an empty current token, adding nothing. -/
def parse_command_parts_aux (cs : List Char) (quote : Option QuoteMode)
    (current : List Char) (parts : List String) :
    Except String (String × List String) :=
  match cs, quote with
  | [], quote =>
    if quote.isSome then .error ("custom command has unmatched quote")
    else
      match (if current.isEmpty then parts else parts ++ [String.mk current]) with
      | [] => .error ("custom command has empty executable")
      | p :: rest => .ok (p, rest)
  | ch :: rest, some QuoteMode.Single =>
    if ch = singleQuote then parse_command_parts_aux rest none current parts
    else parse_command_parts_aux rest (some QuoteMode.Single) (current ++ [ch]) parts
  | ch :: rest, some QuoteMode.Double =>
    if ch = '"' then parse_command_parts_aux rest none current parts
    else if ch = '\\' then
      match rest with
      | [] => .error ("custom command has trailing escape")
      | escaped :: rest2 =>
        parse_command_parts_aux rest2 (some QuoteMode.Double) (current ++ [escaped]) parts
    else parse_command_parts_aux rest (some QuoteMode.Double) (current ++ [ch]) parts
  | ch :: rest, none =>
    if ch = singleQuote then parse_command_parts_aux rest (some QuoteMode.Single) current parts
    else if ch = '"' then parse_command_parts_aux rest (some QuoteMode.Double) current parts
    else if ch = '\\' then
      match rest with
      | [] => .error ("custom command has trailing escape")
      | escaped :: rest2 => parse_command_parts_aux rest2 none (current ++ [escaped]) parts
    else if rustIsWhitespace ch then
      let parts := if current.isEmpty then parts else parts ++ [String.mk current]
      parse_command_parts_aux rest none [] parts
    else parse_command_parts_aux rest none (current ++ [ch]) parts

/-- Translation of parse_command_parts (src/custom_commands.rs): split a
raw command line into the program and its arguments, honoring single
quotes, double quotes with backslash escapes, and backslash escapes
outside quotes. -/
def parse_command_parts (raw : String) : Except String (String × List String) :=
  parse_command_parts_aux raw.data none [] []

/-- Helper: every error produced by the tokenizer loop is one of the
three parse-error messages of the source (strong induction on the
length of the remaining input). -/
theorem parse_command_parts_aux_error_len (n : Nat) :
    ∀ (cs : List Char), cs.length ≤ n →
      ∀ quote current parts e, parse_command_parts_aux cs quote current parts = .error e →
        e = ("custom command has unmatched quote") ∨
        e = ("custom command has trailing escape") ∨
        e = ("custom command has empty executable") := by
  induction n with
  | zero =>
    intro cs hlen quote current parts e h
    rcases cs with _ | ⟨ch, rest⟩
    · simp only [parse_command_parts_aux] at h
      split at h
      · simp_all
      · split at h
        · simp_all
        · simp_all
    · simp at hlen
  | succ n ih =>
    intro cs hlen quote current parts e h
    rcases cs with _ | ⟨ch, rest⟩
    · simp only [parse_command_parts_aux] at h
      split at h
      · simp_all
      · split at h
        · simp_all
        · simp_all
    · rcases quote with _ | mode
      · rcases rest with _ | ⟨c2, rest2⟩
        · have h1 : ([] : List Char).length ≤ n := by simp
          simp only [parse_command_parts_aux] at h
          split_ifs at h
          all_goals
            (first
              | exact ih _ h1 _ _ _ _ h
              | (simp_all; done)
              | (split at h <;> simp_all))
        · have h1 : ([] : List Char).length ≤ n := by simp
          have h2 : (c2 :: rest2).length ≤ n := by simp at hlen ⊢; omega
          have h3 : rest2.length ≤ n := by simp at hlen ⊢; omega
          simp only [parse_command_parts_aux] at h
          split_ifs at h
          all_goals
            (first
              | exact ih _ h1 _ _ _ _ h
              | exact ih _ h2 _ _ _ _ h
              | exact ih _ h3 _ _ _ _ h)
      · rcases mode with _ | _
        · have h2 : rest.length ≤ n := by simp at hlen ⊢; omega
          simp only [parse_command_parts_aux] at h
          split_ifs at h
          all_goals exact ih _ h2 _ _ _ _ h
        · rcases rest with _ | ⟨c2, rest2⟩
          · have h1 : ([] : List Char).length ≤ n := by simp
            simp only [parse_command_parts_aux] at h
            split_ifs at h
            all_goals
              (first
                | exact ih _ h1 _ _ _ _ h
                | (simp_all; done)
                | (split at h <;> simp_all))
          · have h2 : (c2 :: rest2).length ≤ n := by simp at hlen ⊢; omega
            have h3 : rest2.length ≤ n := by simp at hlen ⊢; omega
            simp only [parse_command_parts_aux] at h
            split_ifs at h
            all_goals
              (first
                | exact ih _ h2 _ _ _ _ h
                | exact ih _ h3 _ _ _ _ h)

/-- Helper: the error taxonomy at the top level of the tokenizer. -/
theorem parse_command_parts_aux_error_cases (cs : List Char) :
    ∀ quote current parts e, parse_command_parts_aux cs quote current parts = .error e →
      e = ("custom command has unmatched quote") ∨
      e = ("custom command has trailing escape") ∨
      e = ("custom command has empty executable") :=
  parse_command_parts_aux_error_len cs.length cs (Nat.le_refl _)

/-- The single-quote character as a one-character string, for writing
concrete inputs that contain single quotes. -/
def squoteStr : String := String.mk [singleQuote]

/-- The concrete command line of the specification example:
cmd --message "hello world" --path (single-quoted a/b.rs) plain arg with
an escaped space. -/
def c3ExampleRaw : String :=
  ("cmd --message \"hello world\" --path ") ++ squoteStr ++ ("a/b.rs") ++ squoteStr
    ++ (" plain\\ arg")

/-! ## Graph rows and the graph merge (src/hg/mod.rs) -/

/-- ParsedGraphRow (src/hg/mod.rs). The field graph_pfx models the
source field named graph_prefix. -/
structure ParsedGraphRow where
  rev : Int
  graph_pfx : String
deriving Repr, DecidableEq

/-- Association-list model of the Rust HashMap from revision number to
Revision used by merge_log_graph: insert replaces the binding of an
existing key and otherwise appends. -/
def mapInsert (k : Int) (v : Revision) : List (Int × Revision) → List (Int × Revision)
  | [] => [(k, v)]
  | (k2, v2) :: rest =>
    if k2 = k then (k, v) :: rest else (k2, v2) :: mapInsert k v rest

/-- Association-list model of HashMap remove: returns the removed value,
if any, together with the map without that binding. -/
def mapRemove (k : Int) : List (Int × Revision) → Option Revision × List (Int × Revision)
  | [] => (none, [])
  | (k2, v2) :: rest =>
    if k2 = k then (some v2, rest)
    else
      let r := mapRemove k rest
      (r.1, (k2, v2) :: r.2)

/-- Association-list lookup. -/
def mapLookup (k : Int) (m : List (Int × Revision)) : Option Revision :=
  (m.find? (fun p => p.1 == k)).map (fun p => p.2)

/-- Keys of the association list. -/
def mapKeys (m : List (Int × Revision)) : List Int :=
  m.map (fun p => p.1)

/-- First loop of merge_log_graph: walk the graph rows in order, skip a
row whose revision was already seen (the HashSet insert returning
false), and move the matching revision, with its graph prefix filled in,
from the map to the output. -/
def graphPass : List ParsedGraphRow → List Int → List (Int × Revision) →
    List Revision × List (Int × Revision)
  | [], _, m => ([], m)
  | row :: rows, seen, m =>
    if row.rev ∈ seen then graphPass rows seen m
    else
      match mapRemove row.rev m with
      | (some revision, m2) =>
        let tail := graphPass rows (row.rev :: seen) m2
        ({ revision with graph_pfx := some row.graph_pfx } :: tail.1, tail.2)
      | (none, _) => graphPass rows (row.rev :: seen) m

/-- Second loop of merge_log_graph: walk the original revision numbers
in order and move any revision still in the map to the output. -/
def appendPass : List Int → List (Int × Revision) → List Revision
  | [], _ => []
  | k :: order, m =>
    match mapRemove k m with
    | (some revision, m2) => revision :: appendPass order m2
    | (none, _) => appendPass order m

/-- The map from revision number to revision built at the top of
merge_log_graph by inserting each revision in order. -/
def buildRevMap (revisions : List Revision) : List (Int × Revision) :=
  revisions.foldl (fun m r => mapInsert r.rev r m) []

/-- Translation of merge_log_graph (src/hg/mod.rs): with no graph rows
the revisions are returned unchanged, otherwise the matched prefixes are
overlaid in graph order and remaining revisions appended in original
order. -/
def merge_log_graph (revisions : List Revision) (graph_rows : List ParsedGraphRow) :
    List Revision :=
  if graph_rows.isEmpty then revisions
  else
    let original_order := revisions.map (fun r => r.rev)
    let revisions_by_rev := buildRevMap revisions
    let first := graphPass graph_rows [] revisions_by_rev
    first.1 ++ appendPass original_order first.2

/-- Specification-side helper for C2: the graph rows de-duplicated by
revision number, keeping the first occurrence, relative to an initial
set of already-seen revision numbers. -/
def rowsDedup (seen : List Int) : List ParsedGraphRow → List ParsedGraphRow
  | [] => []
  | row :: rows =>
    if row.rev ∈ seen then rowsDedup seen rows
    else row :: rowsDedup (row.rev :: seen) rows

/-- Specification-side helper for C9: a revision with its graph prefix
forgotten, so that two revisions can be compared on every other field. -/
def clearPfx (r : Revision) : Revision :=
  { r with graph_pfx := none }

/-! ## Lemmas about the association-list map model -/

theorem mapKeys_cons (k2 : Int) (v2 : Revision) (rest : List (Int × Revision)) :
    mapKeys ((k2, v2) :: rest) = k2 :: mapKeys rest := rfl

theorem mapLookup_cons (k k2 : Int) (v2 : Revision) (rest : List (Int × Revision)) :
    mapLookup k ((k2, v2) :: rest) = if k2 = k then some v2 else mapLookup k rest := by
  by_cases h : k2 = k
  · simp [mapLookup, List.find?, h]
  · have hb : (k2 == k) = false := by simp [h]
    simp [mapLookup, List.find?, hb, h]

theorem mapRemove_fst (k : Int) (m : List (Int × Revision)) :
    (mapRemove k m).1 = mapLookup k m := by
  induction m with
  | nil => rfl
  | cons p rest ih =>
    obtain ⟨k2, v2⟩ := p
    by_cases h : k2 = k
    · simp [mapRemove, h, mapLookup_cons]
    · simp [mapRemove, h, mapLookup_cons, ih]

theorem mapRemove_snd_of_none (k : Int) (m : List (Int × Revision))
    (h : (mapRemove k m).1 = none) : (mapRemove k m).2 = m := by
  induction m with
  | nil => rfl
  | cons p rest ih =>
    obtain ⟨k2, v2⟩ := p
    by_cases hk : k2 = k
    · simp [mapRemove, hk] at h
    · simp only [mapRemove, if_neg hk] at h ⊢
      simp at h ⊢
      exact ih h

theorem lookup_mapRemove_ne (k j : Int) (m : List (Int × Revision)) (h : j ≠ k) :
    mapLookup j (mapRemove k m).2 = mapLookup j m := by
  induction m with
  | nil => rfl
  | cons p rest ih =>
    obtain ⟨k2, v2⟩ := p
    by_cases hk : k2 = k
    · have hj : ¬ k = j := fun hh => h hh.symm
      simp [mapRemove, hk, mapLookup_cons, hj]
    · simp only [mapRemove, if_neg hk]
      by_cases hj : k2 = j
      · simp [mapLookup_cons, hj]
      · simp [mapLookup_cons, hj, ih]

theorem mapKeys_mapRemove (k : Int) (m : List (Int × Revision)) :
    mapKeys (mapRemove k m).2 = (mapKeys m).erase k := by
  induction m with
  | nil => rfl
  | cons p rest ih =>
    obtain ⟨k2, v2⟩ := p
    by_cases hk : k2 = k
    · simp [mapRemove, hk, mapKeys, List.erase_cons]
    · simp [mapRemove, hk, mapKeys, List.erase_cons] at *
      exact ih

theorem mapLookup_eq_none_iff (k : Int) (m : List (Int × Revision)) :
    mapLookup k m = none ↔ k ∉ mapKeys m := by
  induction m with
  | nil => simp [mapLookup, mapKeys]
  | cons p rest ih =>
    obtain ⟨k2, v2⟩ := p
    by_cases h : k2 = k
    · simp [mapLookup_cons, mapKeys, h]
    · have h2 : ¬ k = k2 := fun hh => h hh.symm
      simp [mapLookup_cons, mapKeys, h, h2, ih]

theorem lookup_mapRemove_self (k : Int) (m : List (Int × Revision))
    (h : (mapKeys m).Nodup) : mapLookup k (mapRemove k m).2 = none := by
  rw [mapLookup_eq_none_iff, mapKeys_mapRemove]
  intro hmem
  rcases (List.Nodup.mem_erase_iff h).1 hmem with ⟨hne, _⟩
  exact hne rfl

theorem mapInsert_of_not_mem (j : Int) (v : Revision) (m : List (Int × Revision))
    (h : j ∉ mapKeys m) : mapInsert j v m = m ++ [(j, v)] := by
  induction m with
  | nil => rfl
  | cons p rest ih =>
    obtain ⟨k2, v2⟩ := p
    have h1 : ¬ k2 = j := by
      intro hh
      subst hh
      exact h (List.mem_cons_self _ _)
    have h2 : j ∉ mapKeys rest := fun hh => h (List.mem_cons_of_mem _ hh)
    simp [mapInsert, h1, ih h2]

theorem mapRemove_values_perm (k : Int) (v : Revision) (m : List (Int × Revision))
    (h : (mapRemove k m).1 = some v) :
    (m.map (fun p => p.2)).Perm (v :: ((mapRemove k m).2.map (fun p => p.2))) := by
  induction m with
  | nil => simp [mapRemove] at h
  | cons p rest ih =>
    obtain ⟨k2, v2⟩ := p
    by_cases hk : k2 = k
    · simp only [mapRemove, if_pos hk] at h ⊢
      obtain rfl : v2 = v := by simpa using h
      exact List.Perm.refl _
    · simp only [mapRemove, if_neg hk] at h ⊢
      have hperm := ih (by simpa using h)
      exact (hperm.cons v2).trans (List.Perm.swap v v2 _)

theorem filterMap_congr_easyhg {α β : Type} (f g : α → Option β) :
    ∀ (l : List α), (∀ a ∈ l, f a = g a) → l.filterMap f = l.filterMap g := by
  intro l
  induction l with
  | nil => intro _; rfl
  | cons a l ih =>
    intro h
    simp only [List.filterMap_cons, h a (List.mem_cons_self _ _)]
    rw [ih (fun a2 h2 => h a2 (List.mem_cons_of_mem _ h2))]

theorem foldl_mapInsert_eq (revisions : List Revision) :
    ∀ acc, (∀ r ∈ revisions, r.rev ∉ mapKeys acc) →
      ((revisions.map (fun r => r.rev)).Nodup) →
      revisions.foldl (fun m r => mapInsert r.rev r m) acc
        = acc ++ revisions.map (fun r => (r.rev, r)) := by
  induction revisions with
  | nil =>
    intro acc _ _
    simp
  | cons r rest ih =>
    intro acc hacc hnd
    simp only [List.foldl_cons]
    rw [mapInsert_of_not_mem r.rev r acc (hacc r (List.mem_cons_self _ _))]
    simp only [List.map_cons, List.nodup_cons] at hnd
    have hacc2 : ∀ r2 ∈ rest, r2.rev ∉ mapKeys (acc ++ [(r.rev, r)]) := by
      intro r2 hr2 hmem
      simp only [mapKeys, List.map_append, List.mem_append, List.map_cons,
        List.map_nil, List.mem_singleton] at hmem
      rcases hmem with hmem | hmem
      · exact hacc r2 (List.mem_cons_of_mem _ hr2) hmem
      · exact hnd.1 (hmem ▸ List.mem_map_of_mem (fun x => x.rev) hr2)
    rw [ih (acc ++ [(r.rev, r)]) hacc2 hnd.2]
    simp

theorem buildRevMap_eq (revisions : List Revision)
    (hnd : (revisions.map (fun r => r.rev)).Nodup) :
    buildRevMap revisions = revisions.map (fun r => (r.rev, r)) := by
  have := foldl_mapInsert_eq revisions [] (by simp [mapKeys]) hnd
  simpa [buildRevMap] using this

theorem lookup_map_pair (k : Int) (l : List Revision) :
    mapLookup k (l.map (fun r => (r.rev, r))) = l.find? (fun r => r.rev == k) := by
  induction l with
  | nil => rfl
  | cons r rest ih =>
    by_cases h : r.rev = k
    · simp [mapLookup_cons, List.find?, h]
    · have hb : (r.rev == k) = false := by simp [h]
      simp [mapLookup_cons, List.find?, h, hb, ih]

theorem rowsDedup_mem_not_seen (rows : List ParsedGraphRow) :
    ∀ (seen : List Int) (row2 : ParsedGraphRow),
      row2 ∈ rowsDedup seen rows → row2.rev ∉ seen := by
  induction rows with
  | nil =>
    intro seen row2 h
    simp [rowsDedup] at h
  | cons row rows ih =>
    intro seen row2 h
    simp only [rowsDedup] at h
    by_cases hs : row.rev ∈ seen
    · rw [if_pos hs] at h
      exact ih seen row2 h
    · rw [if_neg hs] at h
      rcases List.mem_cons.1 h with rfl | h2
      · exact hs
      · intro hseen
        exact ih _ _ h2 (List.mem_cons_of_mem _ hseen)

theorem rowsDedup_rev_mem (rows : List ParsedGraphRow) :
    ∀ (seen : List Int) (k : Int),
      k ∈ (rowsDedup seen rows).map (fun row => row.rev) ↔
        k ∉ seen ∧ k ∈ rows.map (fun row => row.rev) := by
  induction rows with
  | nil =>
    intro seen k
    simp [rowsDedup]
  | cons row rows ih =>
    intro seen k
    simp only [rowsDedup]
    by_cases hs : row.rev ∈ seen
    · rw [if_pos hs]
      rw [ih]
      simp only [List.map_cons, List.mem_cons]
      by_cases hkr : k = row.rev
      · subst hkr
        simp [hs]
      · simp [hkr]
    · rw [if_neg hs]
      simp only [List.map_cons, List.mem_cons, ih, List.mem_cons]
      by_cases hkr : k = row.rev
      · subst hkr
        simp [hs]
      · simp [hkr]

/-- Characterization of the first merge pass: its output is the
de-duplicated graph rows overlaid onto the revisions found in the map,
the residual map answers lookups as the input map minus the de-duplicated
row revisions, key nodup is preserved, and keys only shrink. -/
theorem graphPass_spec (rows : List ParsedGraphRow) :
    ∀ (seen : List Int) (m : List (Int × Revision)), (mapKeys m).Nodup →
      (graphPass rows seen m).1
          = (rowsDedup seen rows).filterMap
            (fun row => (mapLookup row.rev m).map
              (fun r => { r with graph_pfx := some row.graph_pfx }))
      ∧ (∀ k, mapLookup k (graphPass rows seen m).2
          = if k ∈ (rowsDedup seen rows).map (fun row => row.rev) then none
            else mapLookup k m)
      ∧ ((mapKeys (graphPass rows seen m).2).Nodup)
      ∧ (∀ k, k ∈ mapKeys (graphPass rows seen m).2 → k ∈ mapKeys m) := by
  induction rows with
  | nil =>
    intro seen m hm
    refine ⟨rfl, ?_, hm, fun k hk => hk⟩
    intro k
    simp [rowsDedup, graphPass]
  | cons row rows ih =>
    intro seen m hm
    by_cases hs : row.rev ∈ seen
    · have := ih seen m hm
      simpa [graphPass, rowsDedup, hs] using this
    · rcases hrm : mapRemove row.rev m with ⟨found, m2⟩
      rcases found with _ | revision
      · have hlook : mapLookup row.rev m = none := by
          rw [← mapRemove_fst, hrm]
      /- the source removes nothing here, so the map is unchanged -/
        have hred : graphPass (row :: rows) seen m = graphPass rows (row.rev :: seen) m := by
          simp only [graphPass, if_neg hs, hrm]
        obtain ⟨ih1, ih2, ih3, ih4⟩ := ih (row.rev :: seen) m hm
        rw [hred]
        refine ⟨?_, ?_, ih3, ih4⟩
        · rw [ih1]
          simp [rowsDedup, if_neg hs, List.filterMap_cons, hlook]
        · intro k
          rw [ih2 k]
          simp only [rowsDedup, if_neg hs, List.map_cons, List.mem_cons]
          by_cases hk : k = row.rev
          · by_cases hin :
                k ∈ (rowsDedup (row.rev :: seen) rows).map (fun row => row.rev)
            · simp [hin, hk, hlook]
            · simp [hin, hk, hlook]
          · simp [hk]
      · have hlook : mapLookup row.rev m = some revision := by
          rw [← mapRemove_fst, hrm]
        have hred : graphPass (row :: rows) seen m
            = ({ revision with graph_pfx := some row.graph_pfx }
                  :: (graphPass rows (row.rev :: seen) m2).1,
                (graphPass rows (row.rev :: seen) m2).2) := by
          simp only [graphPass, if_neg hs, hrm]
        have hm2keys : mapKeys m2 = (mapKeys m).erase row.rev := by
          have := mapKeys_mapRemove row.rev m
          rw [hrm] at this
          exact this
        have hm2 : (mapKeys m2).Nodup := by
          rw [hm2keys]
          exact hm.erase _
        obtain ⟨ih1, ih2, ih3, ih4⟩ := ih (row.rev :: seen) m2 hm2
        have hlook2 : ∀ j, j ≠ row.rev → mapLookup j m2 = mapLookup j m := by
          intro j hj
          have := lookup_mapRemove_ne row.rev j m hj
          rw [hrm] at this
          exact this
        have hm2self : mapLookup row.rev m2 = none := by
          have := lookup_mapRemove_self row.rev m hm
          rw [hrm] at this
          exact this
        rw [hred]
        refine ⟨?_, ?_, ih3, ?_⟩
        · simp only []
          rw [ih1]
          simp [rowsDedup, if_neg hs, List.filterMap_cons, hlook]
          apply filterMap_congr_easyhg
          intro row2 h2
          have hne : row2.rev ≠ row.rev := by
            have hnotin := rowsDedup_mem_not_seen rows (row.rev :: seen) row2 h2
            intro hh
            exact hnotin (hh ▸ List.mem_cons_self _ _)
          rw [hlook2 _ hne]
        · intro k
          simp only []
          rw [ih2 k]
          simp only [rowsDedup, if_neg hs, List.map_cons, List.mem_cons]
          by_cases hk : k = row.rev
          · by_cases hin :
                k ∈ (rowsDedup (row.rev :: seen) rows).map (fun row => row.rev)
            · simp [hin, hk, hm2self]
            · simp [hin, hk, hm2self]
          · by_cases hin :
                k ∈ (rowsDedup (row.rev :: seen) rows).map (fun row => row.rev)
            · simp [hin, hk]
            · simp [hin, hk, hlook2 k hk]
        · intro k hk
          have h1 := ih4 k hk
          rw [hm2keys] at h1
          exact List.mem_of_mem_erase h1

/-- Characterization of the second merge pass on a duplicate-free order
list: it returns the lookups of the order keys, in order. -/
theorem appendPass_filterMap (order : List Int) :
    ∀ (m : List (Int × Revision)), order.Nodup →
      appendPass order m = order.filterMap (fun k => mapLookup k m) := by
  induction order with
  | nil =>
    intro m _
    rfl
  | cons k order ih =>
    intro m hnd
    simp only [List.nodup_cons] at hnd
    rcases hrm : mapRemove k m with ⟨found, m2⟩
    rcases found with _ | v
    · have hlook : mapLookup k m = none := by
        rw [← mapRemove_fst, hrm]
      have hred : appendPass (k :: order) m = appendPass order m := by
        simp only [appendPass, hrm]
      rw [hred, ih m hnd.2]
      simp [List.filterMap_cons, hlook]
    · have hlook : mapLookup k m = some v := by
        rw [← mapRemove_fst, hrm]
      have hred : appendPass (k :: order) m = v :: appendPass order m2 := by
        simp only [appendPass, hrm]
      rw [hred, ih m2 hnd.2]
      simp only [List.filterMap_cons, hlook]
      congr 1
      apply filterMap_congr_easyhg
      intro k2 hk2
      have hne : k2 ≠ k := fun hh => hnd.1 (hh ▸ hk2)
      have := lookup_mapRemove_ne k k2 m hne
      rw [hrm] at this
      exact this

/-- The second merge pass drains the whole map, up to order, whenever
the order list covers every key of the map. -/
theorem appendPass_perm (order : List Int) :
    ∀ (m : List (Int × Revision)), order.Nodup → (mapKeys m).Nodup →
      (∀ j ∈ mapKeys m, j ∈ order) →
      (appendPass order m).Perm (m.map (fun p => p.2)) := by
  induction order with
  | nil =>
    intro m _ _ hsub
    have hm : m = [] := by
      cases m with
      | nil => rfl
      | cons p rest => exact absurd (hsub p.1 (by simp [mapKeys])) (by simp)
    subst hm
    simp [appendPass]
  | cons k order ih =>
    intro m hnd hkeys hsub
    simp only [List.nodup_cons] at hnd
    rcases hrm : mapRemove k m with ⟨found, m2⟩
    rcases found with _ | v
    · have hred : appendPass (k :: order) m = appendPass order m := by
        simp only [appendPass, hrm]
      have hknotin : k ∉ mapKeys m := by
        rw [← mapLookup_eq_none_iff, ← mapRemove_fst, hrm]
      rw [hred]
      apply ih m hnd.2 hkeys
      intro j hj
      rcases List.mem_cons.1 (hsub j hj) with rfl | h
      · exact absurd hj hknotin
      · exact h
    · have hred : appendPass (k :: order) m = v :: appendPass order m2 := by
        simp only [appendPass, hrm]
      have hm2keys : mapKeys m2 = (mapKeys m).erase k := by
        have := mapKeys_mapRemove k m
        rw [hrm] at this
        exact this
      have hm2nd : (mapKeys m2).Nodup := by
        rw [hm2keys]
        exact hkeys.erase _
      have hsub2 : ∀ j ∈ mapKeys m2, j ∈ order := by
        intro j hj
        rw [hm2keys] at hj
        rcases (List.Nodup.mem_erase_iff hkeys).1 hj with ⟨hjne, hjm⟩
        rcases List.mem_cons.1 (hsub j hjm) with hh | hh
        · exact absurd hh hjne
        · exact hh
      have hperm := mapRemove_values_perm k v m (by rw [hrm])
      rw [hrm] at hperm
      rw [hred]
      exact ((ih m2 hnd.2 hm2nd hsub2).cons v).trans hperm.symm

/-- The first merge pass only moves revisions from the map to its
output: prefix fields apart, output plus residual map is a permutation
of the input map. -/
theorem graphPass_perm (rows : List ParsedGraphRow) :
    ∀ (seen : List Int) (m : List (Int × Revision)),
      ((graphPass rows seen m).1.map clearPfx
        ++ (graphPass rows seen m).2.map (fun p => clearPfx p.2)).Perm
        (m.map (fun p => clearPfx p.2)) := by
  induction rows with
  | nil =>
    intro seen m
    simp [graphPass]
  | cons row rows ih =>
    intro seen m
    by_cases hs : row.rev ∈ seen
    · have hred : graphPass (row :: rows) seen m = graphPass rows seen m := by
        simp only [graphPass, if_pos hs]
      rw [hred]
      exact ih seen m
    · rcases hrm : mapRemove row.rev m with ⟨found, m2⟩
      rcases found with _ | revision
      · have hred : graphPass (row :: rows) seen m
            = graphPass rows (row.rev :: seen) m := by
          simp only [graphPass, if_neg hs, hrm]
        rw [hred]
        exact ih _ m
      · have hred : graphPass (row :: rows) seen m
            = ({ revision with graph_pfx := some row.graph_pfx }
                :: (graphPass rows (row.rev :: seen) m2).1,
               (graphPass rows (row.rev :: seen) m2).2) := by
          simp only [graphPass, if_neg hs, hrm]
        have hperm := mapRemove_values_perm row.rev revision m (by rw [hrm])
        rw [hrm] at hperm
        have hpermc : (m.map (fun p => clearPfx p.2)).Perm
            (clearPfx revision :: m2.map (fun p => clearPfx p.2)) := by
          have := hperm.map clearPfx
          simpa [List.map_map, Function.comp] using this
        rw [hred]
        simp only [List.map_cons, List.cons_append]
        have hclear : clearPfx { revision with graph_pfx := some row.graph_pfx }
            = clearPfx revision := rfl
        rw [hclear]
        exact ((ih _ m2).cons (clearPfx revision)).trans hpermc.symm

/-- Keys of the revision map are the revision numbers. -/
theorem mapKeys_buildRevMap (revisions : List Revision)
    (hnd : (revisions.map (fun r => r.rev)).Nodup) :
    mapKeys (buildRevMap revisions) = revisions.map (fun r => r.rev) := by
  rw [buildRevMap_eq revisions hnd]
  simp [mapKeys, List.map_map, Function.comp]

theorem find_self_of_nodup (revisions : List Revision)
    (hnd : (revisions.map (fun r => r.rev)).Nodup) :
    ∀ r ∈ revisions, revisions.find? (fun x => x.rev == r.rev) = some r := by
  induction revisions with
  | nil =>
    intro r hr
    simp at hr
  | cons a rest ih =>
    intro r hr
    simp only [List.map_cons, List.nodup_cons] at hnd
    rcases List.mem_cons.1 hr with rfl | hr2
    · simp [List.find?]
    · have hne : a.rev ≠ r.rev := by
        intro hh
        exact hnd.1 (hh ▸ List.mem_map_of_mem (fun x => x.rev) hr2)
      have hb : (a.rev == r.rev) = false := by simp [hne]
      simp only [List.find?, hb]
      exact ih hnd.2 r hr2

theorem filterMap_ite_filter (p : Revision → Bool) :
    ∀ (l : List Revision),
      l.filterMap (fun r => if p r then none else some r)
        = l.filter (fun r => !(p r)) := by
  intro l
  induction l with
  | nil => rfl
  | cons a l ih =>
    by_cases h : p a
    · simp [List.filterMap_cons, List.filter_cons, h, ih]
    · simp [List.filterMap_cons, List.filter_cons, h, ih]

/-- A revision of the C2 example, with the given number and content id
and empty remaining fields. -/
def c2Rev (n : Int) (node : String) : Revision :=
  { rev := n, node := node, desc := "", user := "", branch := "", phase := "",
    tags := [], bookmarks := [], date_unix_secs := n, graph_pfx := none }

/-- The revision list of the specification example for the graph merge. -/
def c2ExampleRevisions : List Revision :=
  [c2Rev 7 ("n7"), c2Rev 8 ("n8"), c2Rev 9 ("n9")]

/-- The graph rows of the specification example. -/
def c2ExampleRows : List ParsedGraphRow :=
  [{ rev := 9, graph_pfx := "@" }, { rev := 8, graph_pfx := "o" }]

/-- The expected merged list of the specification example: order 9, 8, 7
with the matched prefixes overlaid and none on the unmatched revision. -/
def c2ExampleMerged : List Revision :=
  [{ c2Rev 9 ("n9") with graph_pfx := some ("@") },
   { c2Rev 8 ("n8") with graph_pfx := some ("o") },
   c2Rev 7 ("n7")]

/-! ## String utilities mirroring the Rust standard library -/

/-- Rust str::trim_start (Unicode whitespace) on a character list. -/
def rustTrimStartList (cs : List Char) : List Char :=
  cs.dropWhile rustIsWhitespace

/-- Rust str::trim_end (Unicode whitespace) on a character list. -/
def rustTrimEndList (cs : List Char) : List Char :=
  (cs.reverse.dropWhile rustIsWhitespace).reverse

/-- Rust str::trim (Unicode whitespace). -/
def rustTrim (s : String) : String :=
  String.mk (rustTrimEndList (rustTrimStartList s.data))

/-- Rust str::trim_end. -/
def rustTrimEnd (s : String) : String :=
  String.mk (rustTrimEndList s.data)

/-- Helper for str::lines: the accumulator holds the current line in
reverse; a newline terminates a line, stripping one carriage return
directly before it; a final line without terminator is kept as is. -/
def rustLinesAux : List Char → List Char → List String
  | [], acc => if acc.isEmpty then [] else [String.mk acc.reverse]
  | c :: cs, acc =>
    if c = '\n' then
      let acc :=
        match acc with
        | '\r' :: acc2 => acc2
        | _ => acc
      String.mk acc.reverse :: rustLinesAux cs []
    else rustLinesAux cs (c :: acc)

/-- Rust str::lines: split on newline, with no empty final line for a
trailing newline, stripping a carriage return before each newline. -/
def rustLines (s : String) : List String :=
  rustLinesAux s.data []

/-- Rust str::split on a single character: like splitOn, every
separator occurrence starts a new piece and empty pieces are kept. -/
def splitOnChar (sep : Char) : List Char → List (List Char)
  | [] => [[]]
  | c :: rest =>
    if c = sep then [] :: splitOnChar sep rest
    else
      match splitOnChar sep rest with
      | [] => [[c]]
      | p :: ps => (c :: p) :: ps

/-- Rust slice join on strings. -/
def strJoin (sep : String) : List String → String
  | [] => ""
  | [x] => x
  | x :: xs => x ++ sep ++ strJoin sep xs

/-- Helper for str::split_whitespace: accumulate the current token. -/
def splitWhitespaceAux : List Char → List Char → List (List Char)
  | [], acc => if acc.isEmpty then [] else [acc]
  | c :: cs, acc =>
    if rustIsWhitespace c then
      if acc.isEmpty then splitWhitespaceAux cs []
      else acc :: splitWhitespaceAux cs []
    else splitWhitespaceAux cs (acc ++ [c])

/-- Rust str::split_whitespace: the whitespace-separated tokens, with no
empty tokens. -/
def rustSplitWhitespace (s : String) : List String :=
  (splitWhitespaceAux s.data []).map String.mk

/-- Largest value of the Rust i64 type. -/
def i64Max : Int := 9223372036854775807

/-- Smallest value of the Rust i64 type. -/
def i64Min : Int := -9223372036854775808

/-- Rust str::parse::<i64>: an optional sign followed by at least one
ascii digit, rejecting values outside the i64 range. -/
def rustParseI64 (s : String) : Option Int :=
  match s.data with
  | [] => none
  | c :: rest =>
    let signDigits : Bool × List Char :=
      if c = '+' then (false, rest)
      else if c = '-' then (true, rest)
      else (false, c :: rest)
    let digits := signDigits.2
    if digits.isEmpty then none
    else if digits.all (fun d => d.isDigit) then
      let n : Int := digits.foldl (fun acc d => acc * 10 + Int.ofNat (d.toNat - 48)) 0
      let v := if signDigits.1 then -n else n
      if i64Min ≤ v ∧ v ≤ i64Max then some v else none
    else none

/-! ## Snapshot assembler (src/hg/mod.rs) -/

/-- CommandResult (src/hg/mod.rs): one finished external command. -/
structure CommandResult where
  command_preview : String
  success : Bool
  stdout : String
  stderr : String
deriving Repr, DecidableEq

/-- SnapshotOptions (src/hg/mod.rs). -/
structure SnapshotOptions where
  revision_limit : Nat
  include_revisions : Bool
deriving Repr, DecidableEq

/-- Translation of compact_output: trim, and truncate to the 240-byte
limit by taking 240 characters and appending an ellipsis. -/
def compact_output (text : String) : String :=
  let trimmed := rustTrim text
  if trimmed.utf8ByteSize ≤ 240 then trimmed
  else String.mk (trimmed.data.take 240) ++ ("…")

/-- Translation of command_failed: the error text for a command that ran
and exited non-zero, embedding compacted stderr and stdout. -/
def command_failed (out : CommandResult) : String :=
  let stderr := compact_output out.stderr
  let stdout := compact_output out.stdout
  let details :=
    (if stderr.isEmpty then [] else ["stderr: " ++ stderr])
      ++ (if stdout.isEmpty then [] else ["stdout: " ++ stdout])
  if details.isEmpty then "command failed: " ++ out.command_preview
  else "command failed: " ++ out.command_preview ++ " ("
    ++ strJoin (" | ") details ++ ")"

/-- Translation of parse_status_plain: one file change per non-empty
line, splitting the line at the first whitespace into status token and
path. -/
def parse_status_plain (raw : String) : List FileChange :=
  (rustLines raw).filterMap (fun line =>
    let trimmed := rustTrim line
    if trimmed.isEmpty then none
    else
      let cs := trimmed.data
      let token := cs.takeWhile (fun c => !(rustIsWhitespace c))
      if token.length = cs.length then none
      else
        let path := String.mk (rustTrimStartList (cs.drop (token.length + 1)))
        if path.isEmpty then none
        else some { path := path, status := FileStatus.from_hg_code (String.mk token) })

/-- Translation of split_whitespace_list. -/
def split_whitespace_list (raw : String) : List String :=
  rustSplitWhitespace raw

/-- The field separator of the plain log template, unit separator. -/
def LOG_TEMPLATE_FIELD_SEP : Char := '\u001F'

/-- One row of the plain log template: nine separator-split fields. -/
def parse_log_template_line (line : String) : Except String Revision :=
  let fields := (splitOnChar LOG_TEMPLATE_FIELD_SEP line.data).map String.mk
  if fields.length = 9 then
    match rustParseI64 (fields.getD 0 ("")) with
    | none => .error ("invalid revision number in log row: " ++ line)
    | some rev =>
      let date_unix_secs :=
        ((rustSplitWhitespace (fields.getD 8 (""))).head?.bind rustParseI64).getD 0
      .ok { rev := rev,
            node := fields.getD 1 (""),
            desc := fields.getD 2 (""),
            user := fields.getD 3 (""),
            branch := fields.getD 4 (""),
            phase := fields.getD 5 (""),
            tags := split_whitespace_list (fields.getD 6 ("")),
            bookmarks := split_whitespace_list (fields.getD 7 ("")),
            date_unix_secs := date_unix_secs,
            graph_pfx := none }
  else .error ("failed parsing hg log template row: " ++ line)

/-- Helper folding template rows with error propagation. -/
def parse_log_template_go : List String → Except String (List Revision)
  | [] => .ok []
  | line :: rest =>
    match parse_log_template_line line with
    | .error e => .error e
    | .ok r =>
      match parse_log_template_go rest with
      | .error e => .error e
      | .ok rs => .ok (r :: rs)

/-- Translation of parse_log_plain_template: parse every non-blank line
of the plain-template log output, failing on any malformed row. -/
def parse_log_plain_template (raw : String) : Except String (List Revision) :=
  parse_log_template_go
    ((rustLines raw).filter (fun line => !(rustTrim line).isEmpty))

/-- Translation of parse_log_graph: a row is a line whose trailing
character is an ascii digit; the trailing digit run is the revision and
what precedes it, right-trimmed, is the graph prefix. -/
def parse_log_graph (raw : String) : List ParsedGraphRow :=
  (rustLines raw).filterMap (fun line =>
    let cs := rustTrimEndList line.data
    match cs.getLast? with
    | none => none
    | some lastc =>
      if !lastc.isDigit then none
      else
        let digits := (cs.reverse.takeWhile (fun c => c.isDigit)).reverse
        let pfxPart := cs.take (cs.length - digits.length)
        match rustParseI64 (String.mk digits) with
        | none => none
        | some rev =>
          some { rev := rev, graph_pfx := String.mk (rustTrimEndList pfxPart) })

/-- Helper for parse_bookmarks_plain: given the active flag, the name
and the remaining tokens, find the rev:node token and split it. -/
def bookmarkFromParts (active : Bool) (name : String) (rest : List String) :
    Option Bookmark :=
  match rest.find? (fun token => token.data.contains (':')) with
  | none => none
  | some rev_node =>
    let cs := rev_node.data
    let revPart := cs.takeWhile (fun c => !(c = ':'))
    let nodePart := cs.drop (revPart.length + 1)
    match rustParseI64 (String.mk revPart) with
    | none => none
    | some rev => some { name := name, rev := rev, node := String.mk nodePart, active := active }

/-- Translation of parse_bookmarks_plain: a leading star marks the
active bookmark; the first token containing a colon provides revision
and content id. -/
def parse_bookmarks_plain (raw : String) : List Bookmark :=
  (rustLines raw).filterMap (fun line =>
    let trimmed := rustTrim line
    if trimmed.isEmpty then none
    else
      match rustSplitWhitespace trimmed with
      | [] => none
      | first :: rest =>
        if first = ("*") then
          match rest with
          | [] => none
          | name :: rest2 => bookmarkFromParts true name rest2
        else bookmarkFromParts false first rest)

/-- Translation of parse_shelve_list: first token is the shelf name, the
rest of the trimmed line its description. -/
def parse_shelve_list (raw : String) : List Shelf :=
  (rustLines raw).filterMap (fun line =>
    let trimmed := rustTrim line
    if trimmed.isEmpty then none
    else
      match rustSplitWhitespace trimmed with
      | [] => none
      | name :: _ =>
        let rest := rustTrim (String.mk (trimmed.data.drop name.data.length))
        some { name := name, age := none, description := rest })

/-- Drop a number of utf8 bytes from the front of a character list. The
source slices the Rust string at byte index two, which panics on a
boundary inside a multi-byte character; this model drops the partial
character instead (no claim exercises that case). -/
def utf8Drop (n : Nat) : List Char → List Char
  | [] => []
  | c :: cs => if n = 0 then c :: cs else if c.utf8Size ≤ n then utf8Drop (n - c.utf8Size) cs else cs

/-- Translation of parse_resolve_list: lines of at least two bytes whose
first character R marks a resolved conflict, with the path after the
two-byte status prefix. -/
def parse_resolve_list (raw : String) : List ConflictEntry :=
  (rustLines raw).filterMap (fun line =>
    if line.utf8ByteSize < 2 then none
    else
      match line.data with
      | [] => none
      | status :: _ =>
        let path := rustTrim (String.mk (utf8Drop 2 line.data))
        if path.isEmpty then none
        else some { resolved := status == 'R', path := path })

/-- Translation of build_rebase_state: the in-progress flag together
with the partition of the conflict list on its resolved flag. -/
def build_rebase_state (in_progress : Bool) (conflicts : List ConflictEntry) :
    RebaseState :=
  { in_progress := in_progress,
    unresolved_conflicts := (conflicts.filter (fun entry => !entry.resolved)).length,
    resolved_conflicts := (conflicts.filter (fun entry => entry.resolved)).length,
    total_conflicts := conflicts.length }

/-- Environment of one refresh: the external effects of
CliHgClient::refresh_snapshot. runHg models run_hg, returning an error
exactly when the process fails to spawn; pathExists models the
std::fs::metadata existence check on the rebasestate marker;
parseStatusJson, parseLogJson and parseBookmarksJson model the
serde-backed parse_status_json, parse_log_json and parse_bookmarks_json,
whose decoding is done by the external serde_json library; caps is the
result of detect_capabilities, detected once and cached. -/
structure RefreshEnv where
  caps : HgCapabilities
  runHg : List String → Except String CommandResult
  pathExists : String → Bool
  parseStatusJson : String → Except String (List FileChange)
  parseLogJson : String → Except String (List Revision)
  parseBookmarksJson : String → Except String (List Bookmark)

/-- The plain log template passed with the -T flag (LOG_PLAIN_TEMPLATE). -/
def LOG_PLAIN_TEMPLATE : String :=
  "{rev}\u001F{node}\u001F{desc|firstline}\u001F{author}\u001F{branch}\u001F{phase}\u001F{tags}\u001F{bookmarks}\u001F{date|hgdate}\n"

/-- Translation of run_log_template. -/
def run_log_template (env : RefreshEnv) (limit : Nat) : Except String CommandResult :=
  env.runHg [("log"), ("-l"), toString limit, ("-T"), LOG_PLAIN_TEMPLATE]

/-- The plain-status fallback re-issued after a failed or undecodable
structured status query. -/
def statusPlainFallback (env : RefreshEnv) : Except String (List FileChange) :=
  match env.runHg [("status")] with
  | .error e => .error e
  | .ok fallback =>
    if !fallback.success then .error (command_failed fallback)
    else .ok (parse_status_plain fallback.stdout)

/-- The files block of refresh_snapshot: structured-first with plain
fallback when the capability probe reported json status support,
otherwise plain only. -/
def filesFrom (env : RefreshEnv) : Except String (List FileChange) :=
  if env.caps.supports_json_status then
    match env.runHg [("status"), ("-Tjson")] with
    | .error e => .error e
    | .ok status =>
      if status.success then
        match env.parseStatusJson status.stdout with
        | .ok parsed => .ok parsed
        | .error _ => statusPlainFallback env
      else statusPlainFallback env
  else
    match env.runHg [("status")] with
    | .error e => .error e
    | .ok status =>
      if !status.success then .error (command_failed status)
      else .ok (parse_status_plain status.stdout)

/-- The plain-template log fallback re-issued after a failed or
undecodable structured log query. -/
def logTemplateFallback (env : RefreshEnv) (limit : Nat) :
    Except String (List Revision) :=
  match run_log_template env limit with
  | .error e => .error e
  | .ok fallback =>
    if !fallback.success then .error (command_failed fallback)
    else parse_log_plain_template fallback.stdout

/-- The revisions block of refresh_snapshot: empty when revisions are
not requested; otherwise structured-first with plain fallback, then the
graph query merged in when it succeeded and produced rows. -/
def revisionsFrom (env : RefreshEnv) (options : SnapshotOptions) :
    Except String (List Revision) :=
  if options.include_revisions then
    let limit_arg := toString options.revision_limit
    let graph_args := [("log"), ("-G"), ("-l"), limit_arg, ("-T"), ("{rev}\n")]
    let logres :=
      if env.caps.supports_json_log then
        (env.runHg [("log"), ("-l"), limit_arg, ("-Tjson")], true)
      else (run_log_template env options.revision_limit, false)
    match logres.1 with
    | .error e => .error e
    | .ok log =>
      let parsedRes :=
        if logres.2 then
          if log.success then
            match env.parseLogJson log.stdout with
            | .ok parsed => .ok parsed
            | .error _ => logTemplateFallback env options.revision_limit
          else logTemplateFallback env options.revision_limit
        else
          if !log.success then .error (command_failed log)
          else parse_log_plain_template log.stdout
      match parsedRes with
      | .error e => .error e
      | .ok revisions =>
        match env.runHg graph_args with
        | .ok graph_log =>
          if graph_log.success then
            let graph_rows := parse_log_graph graph_log.stdout
            if !graph_rows.isEmpty then .ok (merge_log_graph revisions graph_rows)
            else .ok revisions
          else .ok revisions
        | .error _ => .ok revisions
  else .ok []

/-- The plain-bookmarks fallback. -/
def bookmarksPlainFallback (env : RefreshEnv) : Except String (List Bookmark) :=
  match env.runHg [("bookmarks")] with
  | .error e => .error e
  | .ok fallback =>
    if !fallback.success then .error (command_failed fallback)
    else .ok (parse_bookmarks_plain fallback.stdout)

/-- The bookmarks block of refresh_snapshot. -/
def bookmarksFrom (env : RefreshEnv) : Except String (List Bookmark) :=
  if env.caps.supports_json_bookmarks then
    match env.runHg [("bookmarks"), ("-Tjson")] with
    | .error e => .error e
    | .ok bookmarks =>
      if bookmarks.success then
        match env.parseBookmarksJson bookmarks.stdout with
        | .ok parsed => .ok parsed
        | .error _ => bookmarksPlainFallback env
      else bookmarksPlainFallback env
  else
    match env.runHg [("bookmarks")] with
    | .error e => .error e
    | .ok bookmarks =>
      if !bookmarks.success then .error (command_failed bookmarks)
      else .ok (parse_bookmarks_plain bookmarks.stdout)

/-- The shelves block of refresh_snapshot: queried only when the shelve
extension was detected. -/
def shelvesFrom (env : RefreshEnv) : Except String (List Shelf) :=
  if env.caps.has_shelve then
    match env.runHg [("shelve"), ("--list")] with
    | .error e => .error e
    | .ok shelves =>
      if !shelves.success then .error (command_failed shelves)
      else .ok (parse_shelve_list shelves.stdout)
  else .ok []

/-- The conflicts block of refresh_snapshot. -/
def conflictsFrom (env : RefreshEnv) : Except String (List ConflictEntry) :=
  match env.runHg [("resolve"), ("-l")] with
  | .error e => .error e
  | .ok out =>
    if !out.success then .error (command_failed out)
    else .ok (parse_resolve_list out.stdout)

/-- Translation of CliHgClient::refresh_snapshot: the repository root is
queried first and aborts the refresh on failure; the remaining queries
are issued (concurrently in the source, which the deterministic
environment makes equivalent to this sequential reading) and combined
into one snapshot, with the rebase state derived from the marker path
under the repository metadata directory and the parsed conflict list. -/
def refresh_snapshot (env : RefreshEnv) (options : SnapshotOptions) :
    Except String RepoSnapshot :=
  match env.runHg [("root")] with
  | .error e => .error e
  | .ok root =>
    if !root.success then .error (command_failed root)
    else
      let repo_root := rustTrim root.stdout
      let rebase_state_path := repo_root ++ ("/.hg/rebasestate")
      let rebase_in_progress := env.pathExists rebase_state_path
      let branch := (env.runHg [("branch")]).toOption.map (fun out => rustTrim out.stdout)
      match filesFrom env with
      | .error e => .error e
      | .ok files =>
        match revisionsFrom env options with
        | .error e => .error e
        | .ok revisions =>
          match bookmarksFrom env with
          | .error e => .error e
          | .ok bookmarks =>
            match shelvesFrom env with
            | .error e => .error e
            | .ok shelves =>
              match conflictsFrom env with
              | .error e => .error e
              | .ok conflicts =>
                .ok { repo_root := some repo_root,
                      branch := branch,
                      files := files,
                      revisions := revisions,
                      bookmarks := bookmarks,
                      shelves := shelves,
                      conflicts := conflicts,
                      rebase := build_rebase_state rebase_in_progress conflicts,
                      capabilities := env.caps }

/-! ## Session state machine (src/app.rs, src/actions.rs, src/config.rs) -/

/-- ActionId (src/actions.rs). -/
inductive ActionId where
  | Quit
  | Help
  | FocusNext
  | FocusPrev
  | MoveDown
  | MoveUp
  | RefreshSnapshot
  | RefreshDetails
  | OpenCustomCommands
  | ToggleFileForCommit
  | ClearFileSelection
  | Commit
  | CommitInteractive
  | Bookmark2
  | Shelve2
  | Push
  | Pull
  | Incoming
  | Outgoing
  | UpdateSelected
  | UnshelveSelected
  | ResolveMark
  | ResolveUnmark
  | RebaseSelected
  | RebaseContinue
  | RebaseAbort
  | HisteditSelected
  | HardRefresh
deriving Repr, DecidableEq

/-- FocusPanel (src/app.rs). -/
inductive FocusPanel where
  | Files
  | Revisions
  | Bookmarks
  | Shelves
  | Conflicts
  | Log
deriving Repr, DecidableEq

/-- InputPurpose (src/app.rs). -/
inductive InputPurpose where
  | CommitMessage
  | CommitMessageInteractive
  | BookmarkName
  | ShelveName
deriving Repr, DecidableEq

/-- InputState (src/app.rs). -/
structure InputState where
  title : String
  value : String
  purpose : InputPurpose
deriving Repr, DecidableEq

/-- HgAction (src/hg/mod.rs). -/
inductive HgAction where
  | Commit (message : String) (files : List String)
  | Pull
  | Push
  | Incoming
  | Outgoing
  | BookmarkCreate (name : String)
  | UpdateToRevision (rev : Int)
  | UpdateToBookmark (name : String)
  | ShelveCreate (name : String)
  | Unshelve (name : String)
  | ResolveMark (path : String)
  | ResolveUnmark (path : String)
  | RebaseSourceDest (source_rev : Int) (dest_rev : Int)
  | RebaseContinue
  | RebaseAbort
  | HisteditBase (base_rev : Int)
deriving Repr, DecidableEq

/-- CustomInvocation (src/hg/mod.rs): env is the already-collected list
of name and value pairs. -/
structure CustomInvocation where
  program : String
  args : List String
  env : List (String × String)
deriving Repr, DecidableEq

/-- CustomRunAction (src/app.rs). -/
structure CustomRunAction where
  title : String
  show_output : Bool
  invocation : CustomInvocation
deriving Repr, DecidableEq

/-- PendingRunAction (src/app.rs). -/
inductive PendingRunAction where
  | Hg (action : HgAction)
  | Custom (action : CustomRunAction)
deriving Repr, DecidableEq

/-- PendingConfirmation (src/app.rs). -/
structure PendingConfirmation where
  message : String
  action : PendingRunAction
deriving Repr, DecidableEq

/-- CommandPaletteState (src/app.rs). -/
structure CommandPaletteState where
  selected : Nat
deriving Repr, DecidableEq

/-- InteractiveCommitRequest (src/app.rs). -/
structure InteractiveCommitRequest where
  message : String
  files : List String
deriving Repr, DecidableEq

/-- CommandContext (src/config.rs). -/
inductive CommandContext where
  | Repo
  | File
  | Revision
deriving Repr, DecidableEq

/-- CustomCommand (src/config.rs): env models the HashMap as a list of
key and value pairs, the order standing for the arbitrary iteration
order of the map. -/
structure CustomCommand where
  id : String
  title : String
  context : CommandContext
  command : String
  args : List String
  env : List (String × String)
  show_output : Bool
  needs_confirmation : Bool
deriving Repr, DecidableEq

/-- DetailTarget (src/app.rs); NoneTarget models the None variant. -/
inductive DetailTarget where
  | File (path : String)
  | Revision (rev : Int)
  | NoneTarget
deriving Repr, DecidableEq

/-- One spawned background detail fetch: the data of the tokio::spawn in
refresh_detail_for_focus, recorded instead of executed. -/
inductive DetailRequest where
  | FileDiff (request_id : Nat) (path : String)
  | RevisionPatch (request_id : Nat) (rev : Int)
deriving Repr, DecidableEq

/-- AppEvent (src/app.rs), restricted to the variants the claims need;
results carry the error already rendered to a string as in the source. -/
inductive AppEvent where
  | SnapshotLoaded (preserve_details : Bool) (include_revisions : Bool)
      (result : Except String RepoSnapshot)
  | DetailLoaded (request_id : Nat) (result : Except String String)
deriving Repr

/-- MAX_LOG_LINES (src/app.rs). -/
def MAX_LOG_LINES : Nat := 300

/-- The session state (struct App of src/app.rs), restricted to the
fields the embedded methods read or write. External collaborators appear
as function-valued fields: keyFor models
keymap.key_for_action(action).unwrap_or of the keybinding collaborator;
panelBodyRows and detailBodyRows model the heights derived from the
ui_rects terminal layout (rect.height.saturating_sub(2)). The
commit-file selection BTreeSet is modelled as its list of elements.
detail_request_id is the u64 counter, wrapped modulo 2 to the 64th. -/
structure App where
  focus : FocusPanel
  snapshot : RepoSnapshot
  detail_text : String
  details_scroll : Nat
  log_lines : List String
  status_line : String
  input : Option InputState
  confirmation : Option PendingConfirmation
  command_palette : Option CommandPaletteState
  commit_file_selection : List String
  interactive_commit_request : Option InteractiveCommitRequest
  should_quit : Bool
  files_idx : Nat
  rev_idx : Nat
  bookmarks_idx : Nat
  shelves_idx : Nat
  conflicts_idx : Nat
  log_idx : Nat
  files_offset : Nat
  rev_offset : Nat
  bookmarks_offset : Nat
  shelves_offset : Nat
  conflicts_offset : Nat
  detail_request_id : Nat
  pending_rebase_source : Option Int
  commit_graph_warning_emitted : Bool
  rebase_unavailable_notice_emitted : Bool
  last_rebase_hint : Option String
  keyFor : ActionId → String
  panelBodyRows : FocusPanel → Nat
  detailBodyRows : Nat

/-- Translation of App::append_log. The source prefixes each line with a
wall-clock timestamp; the clock is external IO, so the prefix is
omitted here and log lines hold the message text. -/
def App.append_log (s : App) (line : String) : App :=
  let log_lines := s.log_lines ++ [line]
  let log_lines :=
    if log_lines.length > MAX_LOG_LINES then
      log_lines.drop (log_lines.length - MAX_LOG_LINES)
    else log_lines
  { s with log_lines := log_lines }

/-- Translation of App::set_detail_text. -/
def App.set_detail_text (s : App) (text : String) : App :=
  { s with detail_text := text, details_scroll := 0 }

/-- Translation of App::key_for_action via the keybinding collaborator. -/
def App.key_for_action (s : App) (action : ActionId) : String :=
  s.keyFor action

/-- Translation of App::selected_revision. -/
def App.selected_revision (s : App) : Option Revision :=
  s.snapshot.revisions.get? s.rev_idx

/-- Translation of App::confirm_action. -/
def App.confirm_action (s : App) (action : PendingRunAction) (message : String) : App :=
  { s with confirmation := some { action := action, message := message } }

/-- Translation of App::panel_len. -/
def App.panel_len (s : App) : FocusPanel → Nat
  | .Files => s.snapshot.files.length
  | .Revisions => s.snapshot.revisions.length
  | .Bookmarks => s.snapshot.bookmarks.length
  | .Shelves => s.snapshot.shelves.length
  | .Conflicts => s.snapshot.conflicts.length
  | .Log => s.log_lines.length

/-- Translation of App::panel_index. -/
def App.panel_index (s : App) : FocusPanel → Nat
  | .Files => s.files_idx
  | .Revisions => s.rev_idx
  | .Bookmarks => s.bookmarks_idx
  | .Shelves => s.shelves_idx
  | .Conflicts => s.conflicts_idx
  | .Log => s.log_idx

/-- Translation of App::set_panel_index. -/
def App.set_panel_index (s : App) (panel : FocusPanel) (index : Nat) : App :=
  match panel with
  | .Files => { s with files_idx := index }
  | .Revisions => { s with rev_idx := index }
  | .Bookmarks => { s with bookmarks_idx := index }
  | .Shelves => { s with shelves_idx := index }
  | .Conflicts => { s with conflicts_idx := index }
  | .Log => { s with log_idx := index }

/-- Translation of App::panel_offset; the Log arm reads log_idx exactly
as in the source. -/
def App.panel_offset (s : App) : FocusPanel → Nat
  | .Files => s.files_offset
  | .Revisions => s.rev_offset
  | .Bookmarks => s.bookmarks_offset
  | .Shelves => s.shelves_offset
  | .Conflicts => s.conflicts_offset
  | .Log => s.log_idx

/-- Translation of App::set_panel_offset; the Log arm writes log_idx
exactly as in the source. -/
def App.set_panel_offset (s : App) (panel : FocusPanel) (offset : Nat) : App :=
  match panel with
  | .Files => { s with files_offset := offset }
  | .Revisions => { s with rev_offset := offset }
  | .Bookmarks => { s with bookmarks_offset := offset }
  | .Shelves => { s with shelves_offset := offset }
  | .Conflicts => { s with conflicts_offset := offset }
  | .Log => { s with log_idx := offset }

/-- Translation of App::panel_body_rows via the layout collaborator. -/
def App.panel_body_rows (s : App) (panel : FocusPanel) : Nat :=
  s.panelBodyRows panel

/-- Translation of App::ensure_visible. -/
def App.ensure_visible (s : App) (panel : FocusPanel) : App :=
  if panel = .Log then s
  else
    let len := s.panel_len panel
    if len = 0 then (s.set_panel_index panel 0).set_panel_offset panel 0
    else
      let idx := min (s.panel_index panel) (len - 1)
      let offset := s.panel_offset panel
      let rows := max (s.panel_body_rows panel) 1
      let max_offset := len - rows
      let offset := min offset max_offset
      let offset :=
        if idx < offset then idx
        else if idx ≥ offset + rows then idx + 1 - rows
        else offset
      let offset := min offset max_offset
      let idx := min idx (len - 1)
      (s.set_panel_index panel idx).set_panel_offset panel offset

/-- Translation of App::adjust_indexes: clamp every panel index, prune
the commit-file selection of paths no longer present, and re-clamp the
visible windows. -/
def App.adjust_indexes (s : App) : App :=
  let s :=
    if s.files_idx ≥ s.snapshot.files.length then
      { s with files_idx := s.snapshot.files.length - 1 }
    else s
  let s :=
    if s.rev_idx ≥ s.snapshot.revisions.length then
      { s with rev_idx := s.snapshot.revisions.length - 1 }
    else s
  let s :=
    if s.bookmarks_idx ≥ s.snapshot.bookmarks.length then
      { s with bookmarks_idx := s.snapshot.bookmarks.length - 1 }
    else s
  let s :=
    if s.shelves_idx ≥ s.snapshot.shelves.length then
      { s with shelves_idx := s.snapshot.shelves.length - 1 }
    else s
  let s :=
    if s.conflicts_idx ≥ s.snapshot.conflicts.length then
      { s with conflicts_idx := s.snapshot.conflicts.length - 1 }
    else s
  let s :=
    if s.log_idx ≥ s.log_lines.length then
      { s with log_idx := s.log_lines.length - 1 }
    else s
  let current_paths := s.snapshot.files.map (fun f => f.path)
  let s := { s with commit_file_selection :=
    s.commit_file_selection.filter (fun path => current_paths.contains path) }
  let s := s.ensure_visible .Files
  let s := s.ensure_visible .Revisions
  let s := s.ensure_visible .Bookmarks
  let s := s.ensure_visible .Shelves
  s.ensure_visible .Conflicts

/-- Translation of App::detail_line_count. -/
def App.detail_line_count (s : App) : Nat :=
  (splitOnChar ('\n') s.detail_text.data).length

/-- Translation of App::detail_body_rows via the layout collaborator. -/
def App.detail_body_rows (s : App) : Nat :=
  s.detailBodyRows

/-- Translation of App::max_detail_scroll. -/
def App.max_detail_scroll (s : App) : Nat :=
  let rows := max s.detail_body_rows 1
  s.detail_line_count - rows

/-- Translation of App::detail_target. -/
def App.detail_target (s : App) : DetailTarget :=
  match s.focus with
  | .Files =>
    match s.snapshot.files.get? s.files_idx with
    | some file => .File file.path
    | none => .NoneTarget
  | .Revisions =>
    match s.snapshot.revisions.get? s.rev_idx with
    | some rev => .Revision rev.rev
    | none => .NoneTarget
  | _ => .NoneTarget

/-- Translation of App::refresh_detail_for_focus: reset the detail
scroll, bump the request id (u64 wrapping add), and either record the
background fetch that the source would spawn or set the placeholder
detail text. -/
def App.refresh_detail_for_focus (s : App) : App × Option DetailRequest :=
  let s := { s with details_scroll := 0 }
  let request_id := (s.detail_request_id + 1) % (2 ^ 64)
  let s := { s with detail_request_id := request_id }
  match s.focus with
  | .Files =>
    match s.snapshot.files.get? s.files_idx with
    | some file => (s, some (.FileDiff request_id file.path))
    | none => (s, none)
  | .Revisions =>
    match s.snapshot.revisions.get? s.rev_idx with
    | some rev => (s, some (.RevisionPatch request_id rev.rev))
    | none => (s, none)
  | _ => (s.set_detail_text ("Select a file or revision to view details."), none)

/-- Translation of rebase_unavailable_help_text. -/
def rebase_unavailable_help_text : String :=
  "Rebase is unavailable in this repository.\n\nEnable the Mercurial rebase extension in your hgrc:\n[extensions]\nrebase =\n\nThen refresh the snapshot and try rebase again."

/-- Translation of no_rebase_in_progress_help_text. -/
def no_rebase_in_progress_help_text : String :=
  "No rebase is currently in progress.\n\nStart a rebase with the rebase picker (`r`) from the Commits panel, then use continue/abort actions as needed."

/-- Translation of rebase_continue_blocked_help_text. -/
def rebase_continue_blocked_help_text (unresolved : Nat)
    (resolve_mark_key continue_key abort_key : String) : String :=
  "Rebase continue is blocked.\n\n" ++ toString unresolved
    ++ " unresolved conflict(s) remain.\n\nResolve conflicts in the Conflicts panel (mark resolved with `"
    ++ resolve_mark_key ++ "`), then press `" ++ continue_key
    ++ "`.\nUse `" ++ abort_key ++ "` to abort the rebase."

/-- Translation of App::set_rebase_guard_detail_text. -/
def App.set_rebase_guard_detail_text (s : App) (text : String) : App :=
  s.set_detail_text text

/-! ## Custom-command templates (src/custom_commands.rs) -/

/-- The opening brace character, by code point. -/
def braceOpen : Char := Char.ofNat 123

/-- The closing brace character, by code point. -/
def braceClose : Char := Char.ofNat 125

/-- SUPPORTED_TEMPLATE_VARS (src/custom_commands.rs). -/
def SUPPORTED_TEMPLATE_VARS : List String :=
  ["repo_root", "branch", "file", "rev", "node"]

/-- Translation of is_template_var_name: ascii letter or underscore
first, ascii alphanumerics or underscores after. -/
def is_template_var_name (raw : String) : Bool :=
  match raw.data with
  | [] => false
  | first :: rest =>
    (first.isAlpha || first = '_') && rest.all (fun c => c.isAlphanum || c = '_')

/-- Scanner of template_vars. The source scans by byte index, finding
the next opening brace and then the next closing brace after it; this
renders the same scan as a character state machine: outside a brace the
next opening brace starts a candidate, inside one the characters up to
the next closing brace accumulate (an opening brace inside accumulates
like any character, as in the source, whose inner search looks only for
the closing brace), and an unclosed candidate at the end is dropped as
the source breaks out of its loop. -/
def template_vars_go : List Char → Option (List Char) → List String → List String
  | [], _, _ => []
  | c :: cs, none, seen =>
    if c = braceOpen then template_vars_go cs (some []) seen
    else template_vars_go cs none seen
  | c :: cs, some acc, seen =>
    if c = braceClose then
      let candidate := String.mk acc
      if is_template_var_name candidate && !(seen.contains candidate) then
        candidate :: template_vars_go cs none (candidate :: seen)
      else template_vars_go cs none seen
    else template_vars_go cs (some (acc ++ [c])) seen

/-- Translation of template_vars: the distinct well-formed placeholder
names of a raw string, in first-occurrence order. -/
def template_vars (raw : String) : List String :=
  template_vars_go raw.data none []

/-- Translation of unresolved_template_vars: the placeholder names of
the raw string that are not keys of the variable map (the map is
modelled as a key and value list). -/
def unresolved_template_vars (raw : String) (vars : List (String × String)) :
    List String :=
  (template_vars raw).filter (fun name => !((vars.map (fun p => p.1)).contains name))

/-- Translation of render_template: replace each brace-wrapped variable
name by its value; the list order models the arbitrary iteration order
of the HashMap in the source. -/
def render_template (raw : String) (vars : List (String × String)) : String :=
  vars.foldl
    (fun rendered p => rendered.replace ("\x7b" ++ p.1 ++ "\x7d") p.2) raw

/-- HashMap insert modelled on a key and value list: replace the binding
of an existing key, otherwise append. -/
def insertVar (key value : String) : List (String × String) → List (String × String)
  | [] => [(key, value)]
  | (k, v) :: rest =>
    if k = key then (key, value) :: rest else (k, v) :: insertVar key value rest

/-- HashMap entry().or_insert_with modelled on a key and value list:
insert only when the key is absent. -/
def entryOrInsertVar (key value : String) (vars : List (String × String)) :
    List (String × String) :=
  if (vars.map (fun p => p.1)).contains key then vars else vars ++ [(key, value)]

/-! ## Rebase picker and guards (src/app.rs) -/

/-- Translation of App::start_or_confirm_rebase, the two-step picker. -/
def App.start_or_confirm_rebase (s : App) : App :=
  if !s.snapshot.capabilities.has_rebase then
    ({ s with status_line := "Rebase extension not enabled." }).set_detail_text
      rebase_unavailable_help_text
  else
    match s.selected_revision with
    | none => { s with status_line := "No revision selected for rebase." }
    | some selected =>
      let selected_rev := selected.rev
      match s.pending_rebase_source with
      | some source_rev =>
        if source_rev = selected_rev then
          { s with status_line :=
              "Select a different destination revision, then press rebase again." }
        else
          let s := { s with
            pending_rebase_source := none,
            status_line := "Rebase step 2/2: confirm source " ++ toString source_rev
              ++ " -> destination " ++ toString selected_rev ++ "." }
          s.confirm_action
            (PendingRunAction.Hg (HgAction.RebaseSourceDest source_rev selected_rev))
            ("Rebase step 2/2: rebase source revision " ++ toString source_rev
              ++ " onto destination revision " ++ toString selected_rev ++ "?")
      | none =>
        { s with
          pending_rebase_source := some selected_rev,
          status_line := "Rebase step 1/2: source " ++ toString selected_rev
            ++ " selected. Choose destination and press "
            ++ s.key_for_action ActionId.RebaseSelected ++ " again (Esc cancels)." }

/-- Translation of App::continue_rebase with its three guards. -/
def App.continue_rebase (s : App) : App :=
  if !s.snapshot.capabilities.has_rebase then
    ({ s with status_line := "Rebase extension not enabled." }).set_detail_text
      rebase_unavailable_help_text
  else if !s.snapshot.rebase.in_progress then
    ({ s with status_line := "No rebase is currently in progress." }).set_rebase_guard_detail_text
      no_rebase_in_progress_help_text
  else if s.snapshot.rebase.unresolved_conflicts > 0 then
    let unresolved := s.snapshot.rebase.unresolved_conflicts
    ({ s with status_line := "Cannot continue rebase: " ++ toString unresolved
        ++ " unresolved conflict(s) remain." }).set_rebase_guard_detail_text
      (rebase_continue_blocked_help_text unresolved
        (s.key_for_action ActionId.ResolveMark)
        (s.key_for_action ActionId.RebaseContinue)
        (s.key_for_action ActionId.RebaseAbort))
  else
    let s := { s with
      pending_rebase_source := none,
      status_line := "Rebase continue ready. Confirm to proceed." }
    s.confirm_action (PendingRunAction.Hg HgAction.RebaseContinue)
      ("Continue in-progress rebase?")

/-- Translation of App::abort_rebase with its two guards. -/
def App.abort_rebase (s : App) : App :=
  if !s.snapshot.capabilities.has_rebase then
    ({ s with status_line := "Rebase extension not enabled." }).set_detail_text
      rebase_unavailable_help_text
  else if !s.snapshot.rebase.in_progress then
    ({ s with status_line := "No rebase is currently in progress." }).set_rebase_guard_detail_text
      no_rebase_in_progress_help_text
  else
    let s := { s with
      pending_rebase_source := none,
      status_line := "Rebase abort ready. Confirm to proceed." }
    s.confirm_action (PendingRunAction.Hg HgAction.RebaseAbort)
      ("Abort in-progress rebase?")

/-- Translation of App::cancel_pending_rebase_selection: the returned
flag is whether a pending source was cleared. -/
def App.cancel_pending_rebase_selection (s : App) : Bool × App :=
  match s.pending_rebase_source with
  | none => (false, s)
  | some _ =>
    (true, { s with
      pending_rebase_source := none,
      status_line := "Rebase selection cancelled." })

/-- The trailing block of App::custom_template_vars: the file and the
viewed revision fall back into the map when a selection exists and the
key is not already bound. -/
def finishTemplateVars (s : App) (vars : List (String × String)) :
    Except String (List (String × String)) :=
  let vars :=
    match s.snapshot.files.get? s.files_idx with
    | some file => entryOrInsertVar ("file") file.path vars
    | none => vars
  let vars :=
    match s.snapshot.revisions.get? s.rev_idx with
    | some rev =>
      entryOrInsertVar ("node") rev.node
        (entryOrInsertVar ("rev") (toString rev.rev) vars)
    | none => vars
  .ok vars

/-- Translation of App::custom_template_vars: repo root and branch are
always bound, the command context demands a selected file or revision,
and current selections fall back in afterwards. -/
def App.custom_template_vars (s : App) (command : CustomCommand) :
    Except String (List (String × String)) :=
  match s.snapshot.repo_root with
  | none => .error ("repository root unavailable")
  | some repo_root =>
    let vars : List (String × String) := []
    let vars := insertVar ("repo_root") repo_root vars
    let vars := insertVar ("branch") (s.snapshot.branch.getD ("unknown")) vars
    match command.context with
    | .Repo => finishTemplateVars s vars
    | .File =>
      match s.snapshot.files.get? s.files_idx with
      | none => .error ("file-context command requires selected file")
      | some file => finishTemplateVars s (insertVar ("file") file.path vars)
    | .Revision =>
      match s.snapshot.revisions.get? s.rev_idx with
      | none => .error ("revision-context command requires selected revision")
      | some rev =>
        finishTemplateVars s
          (insertVar ("node") rev.node (insertVar ("rev") (toString rev.rev) vars))

/-- The collection loop of prepare_custom_run_action: walk the remaining
template pieces and push each unresolved name not yet collected. -/
def collect_extra_unresolved (vars : List (String × String)) (raws : List String)
    (unresolved : List String) : List String :=
  raws.foldl
    (fun unresolved raw =>
      (unresolved_template_vars raw vars).foldl
        (fun unresolved name =>
          if unresolved.contains name then unresolved else unresolved ++ [name])
        unresolved)
    unresolved

/-- Rust Vec sort on strings, rendered as insertion sort by the linear
order on strings (code-point order, which agrees with byte order). -/
def sortStrings (l : List String) : List String :=
  List.insertionSort (fun a b => a ≤ b) l

/-- Translation of App::prepare_custom_run_action: build the template
variables, tokenize the command line, reject with the sorted and
de-duplicated list of unresolved placeholder names when any placeholder
in program, base arguments, declared arguments or environment values
does not resolve, and otherwise produce the fully substituted
invocation. -/
def App.prepare_custom_run_action (s : App) (command : CustomCommand) :
    Except String CustomRunAction :=
  match s.custom_template_vars command with
  | .error e => .error e
  | .ok tvars =>
    match parse_command_parts command.command with
    | .error e => .error e
    | .ok (program_raw, base_args_raw) =>
      let unresolved := unresolved_template_vars program_raw tvars
      let unresolved := collect_extra_unresolved tvars
        (base_args_raw ++ command.args ++ command.env.map (fun p => p.2)) unresolved
      if !unresolved.isEmpty then
        .error ("custom command " ++ squoteStr ++ command.id ++ squoteStr
          ++ " requires unavailable template vars: "
          ++ strJoin (", ") (sortStrings unresolved))
      else
        let program := render_template program_raw tvars
        if (rustTrim program).isEmpty then
          .error ("custom command " ++ squoteStr ++ command.id ++ squoteStr
            ++ " resolved to empty program")
        else
          let args := base_args_raw.map (fun arg => render_template arg tvars)
            ++ command.args.map (fun arg => render_template arg tvars)
          let env := command.env.map (fun p => (p.1, render_template p.2 tvars))
          .ok { title := command.title, show_output := command.show_output,
                invocation := { program := program, args := args, env := env } }

/-! ## Snapshot application and detail completions (src/app.rs) -/

/-- Translation of App::update_rebase_hint_log. -/
def App.update_rebase_hint_log (s : App) (hint : Option String) : App :=
  if hint ≠ s.last_rebase_hint then
    let s :=
      match hint with
      | some line => s.append_log line
      | none => s
    { s with last_rebase_hint := hint }
  else s

/-- Translation of App::rebase_status_hint_from_snapshot. -/
def App.rebase_status_hint_from_snapshot (s : App) : Option String :=
  if !s.snapshot.capabilities.has_rebase || !s.snapshot.rebase.in_progress then none
  else
    let continue_key := s.key_for_action ActionId.RebaseContinue
    let abort_key := s.key_for_action ActionId.RebaseAbort
    let unresolved := s.snapshot.rebase.unresolved_conflicts
    if unresolved > 0 then
      some ("Rebase in progress: " ++ toString unresolved
        ++ " unresolved conflict(s). Resolve conflicts, then press " ++ continue_key
        ++ " to continue or " ++ abort_key ++ " to abort.")
    else
      some ("Rebase in progress: all conflicts resolved. Press " ++ continue_key
        ++ " to continue or " ++ abort_key ++ " to abort.")

/-- Translation of App::refresh_rebase_status_hint_from_snapshot. -/
def App.refresh_rebase_status_hint_from_snapshot (s : App) : App :=
  let hint := s.rebase_status_hint_from_snapshot
  let s :=
    match hint with
    | some line => { s with status_line := line }
    | none =>
      if s.last_rebase_hint.isSome then
        let line := "Rebase is no longer in progress."
        ({ s with status_line := line }).append_log line
      else s
  s.update_rebase_hint_log hint

/-- The if-let block of the SnapshotLoaded handler that clears a pending
rebase source whose revision disappeared from the fresh snapshot. -/
def App.clear_vanished_rebase_source (s : App) : App :=
  match s.pending_rebase_source with
  | some source_rev =>
    let source_still_visible :=
      s.snapshot.revisions.any (fun rev => rev.rev == source_rev)
    if !source_still_visible then
      ({ s with pending_rebase_source := none }).append_log
        ("Rebase source revision " ++ toString source_rev
          ++ " disappeared; selection cleared.")
    else s
  | none => s

/-- The graph-availability block of the SnapshotLoaded handler. -/
def App.apply_graph_warning (s : App) (include_revisions : Bool) : App :=
  if include_revisions then
    let has_graph_rows := s.snapshot.revisions.any (fun rev =>
      match rev.graph_pfx with
      | some pfx => !pfx.isEmpty
      | none => false)
    if !s.snapshot.revisions.isEmpty && !has_graph_rows then
      let s :=
        if !s.commit_graph_warning_emitted then
          s.append_log ("Commit graph unavailable; showing flat commit list.")
        else s
      { s with
        commit_graph_warning_emitted := true,
        status_line := "Repository state refreshed (flat commit list)." }
    else
      { s with
        commit_graph_warning_emitted := false,
        status_line := "Repository state refreshed." }
  else { s with status_line := "Repository state refreshed." }

/-- The rebase-availability notice block of the SnapshotLoaded handler. -/
def App.apply_rebase_notice (s : App) : App :=
  if !s.snapshot.capabilities.has_rebase && !s.rebase_unavailable_notice_emitted then
    { s.append_log ("Rebase unavailable: enable the Mercurial " ++ squoteStr
        ++ "rebase" ++ squoteStr
        ++ " extension to use the rebase action (r).") with
      rebase_unavailable_notice_emitted := true }
  else if s.snapshot.capabilities.has_rebase then
    { s with rebase_unavailable_notice_emitted := false }
  else s

/-- Translation of App::handle_app_event for the SnapshotLoaded and
DetailLoaded events. A lightweight snapshot has the previous revision
list carried forward before being applied wholesale; a detail completion
is applied only when its request id still matches. The background
detail fetch that the handler may re-issue is state-modelled through
refresh_detail_for_focus. -/
def App.handle_app_event (s : App) (event : AppEvent) : App :=
  match event with
  | .SnapshotLoaded preserve_details include_revisions result =>
    match result with
    | .ok snapshot0 =>
      let previous_detail_target := s.detail_target
      let snapshot :=
        if !include_revisions then
          { snapshot0 with revisions := s.snapshot.revisions }
        else snapshot0
      let s := { s with snapshot := snapshot }
      let s := s.adjust_indexes
      let s := s.apply_graph_warning include_revisions
      let s := s.clear_vanished_rebase_source
      let s := s.apply_rebase_notice
      let detail_target_changed := previous_detail_target ≠ s.detail_target
      let s :=
        if !preserve_details || detail_target_changed then
          (s.refresh_detail_for_focus).1
        else s
      let s := s.refresh_rebase_status_hint_from_snapshot
      s.append_log ("Snapshot refreshed")
    | .error err =>
      let s := { s with status_line := "Snapshot refresh failed." }
      let s := s.update_rebase_hint_log none
      s.append_log ("Refresh failed: " ++ err)
  | .DetailLoaded request_id result =>
    if request_id = s.detail_request_id then
      match result with
      | .ok text =>
        let detail_text :=
          if (rustTrim text).isEmpty then ("No diff output.") else text
        s.set_detail_text detail_text
      | .error err => s.set_detail_text ("Failed loading detail: " ++ err)
    else s

/-! ## Claim C5 -/

/-- C5: the rebase picker is a two-step state machine. With rebase
available and a revision selected: invoking with no pending source
records the selected revision as pending and opens no confirmation;
invoking again on the same revision leaves the pending source unchanged,
opens no confirmation and rejects with the pick-a-different-destination
message; invoking on a different revision clears the pending source and
opens a confirmation whose action rebases source onto destination; and
an explicit cancel while a source is pending clears it. -/
theorem c5_rebase_picker (s : App) (r : Revision)
    (hcap : s.snapshot.capabilities.has_rebase = true)
    (hsel : s.selected_revision = some r) :
    (s.pending_rebase_source = none →
      (s.start_or_confirm_rebase).pending_rebase_source = some r.rev ∧
      (s.start_or_confirm_rebase).confirmation = s.confirmation) ∧
    (s.pending_rebase_source = some r.rev →
      (s.start_or_confirm_rebase).pending_rebase_source = some r.rev ∧
      (s.start_or_confirm_rebase).confirmation = s.confirmation ∧
      (s.start_or_confirm_rebase).status_line
        = "Select a different destination revision, then press rebase again.") ∧
    (∀ src, s.pending_rebase_source = some src → src ≠ r.rev →
      (s.start_or_confirm_rebase).pending_rebase_source = none ∧
      ((s.start_or_confirm_rebase).confirmation.map (fun c => c.action))
        = some (PendingRunAction.Hg (HgAction.RebaseSourceDest src r.rev))) ∧
    (∀ src, s.pending_rebase_source = some src →
      (s.cancel_pending_rebase_selection).1 = true ∧
      (s.cancel_pending_rebase_selection).2.pending_rebase_source = none) := by
  refine ⟨?_, ?_, ?_, ?_⟩
  · intro hp
    unfold App.start_or_confirm_rebase
    simp [hcap, hsel, hp]
  · intro hp
    unfold App.start_or_confirm_rebase
    simp [hcap, hsel, hp]
  · intro src hp hne
    unfold App.start_or_confirm_rebase
    simp [hcap, hsel, hp, hne, App.confirm_action]
  · intro src hp
    unfold App.cancel_pending_rebase_selection
    simp [hp]

/-- The state of the C5 witness: rebase available, revision 18 selected,
revision 20 recorded as pending source. -/
def c5WitnessState : App :=
  { focus := .Revisions,
    snapshot :=
      { repo_root := some ("/repo"), branch := some ("default"), files := [],
        revisions := [c2Rev 18 ("n18")], bookmarks := [], shelves := [],
        conflicts := [],
        rebase := { in_progress := false, unresolved_conflicts := 0,
                    resolved_conflicts := 0, total_conflicts := 0 },
        capabilities :=
          { version := "hg 6.9", has_rebase := true, has_histedit := true,
            has_shelve := true, supports_json_status := true,
            supports_json_log := true, supports_json_bookmarks := true } },
    detail_text := "", details_scroll := 0, log_lines := [], status_line := "",
    input := none, confirmation := none, command_palette := none,
    commit_file_selection := [], interactive_commit_request := none,
    should_quit := false, files_idx := 0, rev_idx := 0, bookmarks_idx := 0,
    shelves_idx := 0, conflicts_idx := 0, log_idx := 0, files_offset := 0,
    rev_offset := 0, bookmarks_offset := 0, shelves_offset := 0,
    conflicts_offset := 0, detail_request_id := 0,
    pending_rebase_source := some 20, commit_graph_warning_emitted := false,
    rebase_unavailable_notice_emitted := false, last_rebase_hint := none,
    keyFor := fun _ => "r", panelBodyRows := fun _ => 10, detailBodyRows := 10 }

/-- Witness for C5: selecting revision 18 with pending source 20 clears
the pending source and opens the rebase confirmation for 20 onto 18. -/
theorem c5_witness :
    c5WitnessState.snapshot.capabilities.has_rebase = true ∧
    c5WitnessState.selected_revision = some (c2Rev 18 ("n18")) ∧
    c5WitnessState.pending_rebase_source = some 20 ∧
    ((c5WitnessState.start_or_confirm_rebase).pending_rebase_source = none ∧
      ((c5WitnessState.start_or_confirm_rebase).confirmation.map (fun c => c.action))
        = some (PendingRunAction.Hg (HgAction.RebaseSourceDest 20 18))) :=
  ⟨rfl, rfl, rfl,
    (c5_rebase_picker c5WitnessState (c2Rev 18 ("n18")) rfl rfl).2.2.1 20 rfl
      (by decide)⟩

/-! ## Claim C6 -/

/-- C6: rebase continue opens no confirmation (hence dispatches nothing,
since dispatch only happens on a confirmed confirmation) while the
unresolved conflict count is positive, and surfaces that count in the
status line whenever the guard is the one that fires; and both continue
and abort open no confirmation when no rebase is in progress. -/
theorem c6_rebase_guards (s : App) :
    (s.snapshot.rebase.unresolved_conflicts > 0 →
      (s.continue_rebase).confirmation = s.confirmation) ∧
    (s.snapshot.rebase.in_progress = false →
      (s.continue_rebase).confirmation = s.confirmation ∧
      (s.abort_rebase).confirmation = s.confirmation) ∧
    (s.snapshot.capabilities.has_rebase = true →
      s.snapshot.rebase.in_progress = true →
      s.snapshot.rebase.unresolved_conflicts > 0 →
      (s.continue_rebase).status_line
        = "Cannot continue rebase: "
          ++ toString s.snapshot.rebase.unresolved_conflicts
          ++ " unresolved conflict(s) remain.") := by
  refine ⟨?_, ?_, ?_⟩
  · intro hu
    unfold App.continue_rebase
    by_cases hcap : s.snapshot.capabilities.has_rebase
    · by_cases hip : s.snapshot.rebase.in_progress
      · simp [hcap, hip, hu, App.set_rebase_guard_detail_text, App.set_detail_text]
      · simp [hcap, hip, App.set_rebase_guard_detail_text, App.set_detail_text]
    · simp [hcap, App.set_detail_text]
  · intro hip
    constructor
    · unfold App.continue_rebase
      by_cases hcap : s.snapshot.capabilities.has_rebase
      · simp [hcap, hip, App.set_rebase_guard_detail_text, App.set_detail_text]
      · simp [hcap, App.set_detail_text]
    · unfold App.abort_rebase
      by_cases hcap : s.snapshot.capabilities.has_rebase
      · simp [hcap, hip, App.set_rebase_guard_detail_text, App.set_detail_text]
      · simp [hcap, App.set_detail_text]
  · intro hcap hip hu
    unfold App.continue_rebase
    simp [hcap, hip, hu, App.set_rebase_guard_detail_text, App.set_detail_text]

/-- The state of the C6 witness: a rebase in progress with two
unresolved conflicts. -/
def c6WitnessState : App :=
  { c5WitnessState with
    pending_rebase_source := none,
    snapshot :=
      { c5WitnessState.snapshot with
        conflicts := [{ resolved := false, path := "a" },
                      { resolved := true, path := "b" },
                      { resolved := false, path := "c" }],
        rebase := { in_progress := true, unresolved_conflicts := 2,
                    resolved_conflicts := 1, total_conflicts := 3 } } }

/-- Witness for C6: with two unresolved conflicts, continue opens no
confirmation and the status line surfaces the count. -/
theorem c6_witness :
    c6WitnessState.snapshot.rebase.unresolved_conflicts > 0 ∧
    (c6WitnessState.continue_rebase).confirmation
      = c6WitnessState.confirmation ∧
    c6WitnessState.snapshot.capabilities.has_rebase = true ∧
    c6WitnessState.snapshot.rebase.in_progress = true ∧
    (c6WitnessState.continue_rebase).status_line
      = "Cannot continue rebase: "
        ++ toString c6WitnessState.snapshot.rebase.unresolved_conflicts
        ++ " unresolved conflict(s) remain." :=
  ⟨by decide, (c6_rebase_guards c6WitnessState).1 (by decide), rfl, rfl,
    (c6_rebase_guards c6WitnessState).2.2 rfl rfl (by decide)⟩

/-! ## Claim C8 -/

/-- The starting state of the C8 scenario: latest issued request id 4,
focus on the files panel with a file selected. -/
def c8State : App :=
  { c5WitnessState with
    focus := .Files,
    detail_request_id := 4,
    pending_rebase_source := none,
    snapshot :=
      { c5WitnessState.snapshot with
        files := [{ path := "src/main.rs", status := FileStatus.Modified },
                  { path := "README.md", status := FileStatus.Added }] } }

/-- The C8 scenario state after issuing two detail fetches: request ids
5 and then 6 were handed to background tasks. -/
def c8AfterIssues : App :=
  ((c8State.refresh_detail_for_focus).1.refresh_detail_for_focus).1

/-- C8: a detail-fetch completion is applied to the detail text only
when its request id equals the latest issued id; a completion with any
other id leaves the state unchanged, with no error. In the scenario
where requests 5 and 6 were issued and complete out of order, the final
detail text reflects request 6 only. -/
theorem c8_stale_detail_results (s : App) (request_id : Nat)
    (result : Except String String) :
    (request_id ≠ s.detail_request_id →
      s.handle_app_event (.DetailLoaded request_id result) = s) ∧
    (∀ text, request_id = s.detail_request_id → result = .ok text →
      (rustTrim text).isEmpty = false →
      (s.handle_app_event (.DetailLoaded request_id result)).detail_text = text) ∧
    (c8AfterIssues.detail_request_id = 6 ∧
      ((c8AfterIssues.handle_app_event
          (.DetailLoaded 6 (.ok ("patch six")))).handle_app_event
            (.DetailLoaded 5 (.ok ("patch five")))).detail_text
        = ("patch six")) := by
  refine ⟨?_, ?_, by decide, ?_⟩
  · intro hne
    unfold App.handle_app_event
    simp [hne]
  · intro text heq hres htext
    subst heq
    subst hres
    unfold App.handle_app_event
    simp [htext, App.set_detail_text]
  · rfl

/-- Witness for C8: the late completion of request 5 is discarded
without changing the state that request 6 produced. -/
theorem c8_witness :
    (5 : Nat)
        ≠ (c8AfterIssues.handle_app_event
            (.DetailLoaded 6 (.ok ("patch six")))).detail_request_id ∧
    ((c8AfterIssues.handle_app_event
        (.DetailLoaded 6 (.ok ("patch six")))).handle_app_event
          (.DetailLoaded 5 (.ok ("patch five"))))
      = c8AfterIssues.handle_app_event (.DetailLoaded 6 (.ok ("patch six"))) :=
  ⟨by decide,
    (c8_stale_detail_results
        (c8AfterIssues.handle_app_event (.DetailLoaded 6 (.ok ("patch six"))))
        5 (.ok ("patch five"))).1 (by decide)⟩

/-! ## Claim C10 -/

/-- C10: for every non-empty string s, FileStatus.from_hg_code s followed
by FileStatus.code returns the first character of s (unrecognized first
characters round-trip through the Other variant), and for the empty
string from_hg_code returns Unknown, whose code is the question mark. -/
theorem c10_from_hg_code_code_first_char :
    (∀ (s : String) (c : Char) (cs : List Char),
      s.data = c :: cs → (FileStatus.from_hg_code s).code = c) ∧
    FileStatus.from_hg_code ("") = FileStatus.Unknown ∧
    (FileStatus.from_hg_code ("")).code = '?' := by
  refine ⟨?_, rfl, rfl⟩
  intro s c cs h
  unfold FileStatus.from_hg_code
  rw [h]
  simp only [List.headD_cons]
  split_ifs <;> simp_all [FileStatus.code]

/-- Witness for C10 at the concrete input "Z9": the status round-trips
through the Other variant back to the character Z. -/
theorem c10_witness :
    ("Z9" : String).data = 'Z' :: ['9'] ∧
    (FileStatus.from_hg_code ("Z9")).code = 'Z' :=
  ⟨rfl, c10_from_hg_code_code_first_char.1 ("Z9") 'Z' ['9'] rfl⟩

/-! ## Claim C3 -/

/-- C3: the custom-command tokenizer splits on whitespace honoring
single quotes (content verbatim), double quotes (backslash escapes
recognized inside) and backslash escapes outside quotes; the
specification example yields program cmd and the five expected
arguments; an unterminated double or single quote is rejected with the
unmatched-quote error, a trailing escape with the trailing-escape
error, and an input with no tokens with the empty-executable error; and
every parse error is one of those three. -/
theorem c3_parse_command_parts_spec :
    parse_command_parts c3ExampleRaw =
      .ok (("cmd"),
        [("--message"), ("hello world"), ("--path"), ("a/b.rs"), ("plain arg")]) ∧
    parse_command_parts ("cmd \"unterminated") =
      .error ("custom command has unmatched quote") ∧
    parse_command_parts ("cmd " ++ squoteStr ++ ("oops")) =
      .error ("custom command has unmatched quote") ∧
    parse_command_parts ("cmd arg\\") =
      .error ("custom command has trailing escape") ∧
    parse_command_parts ("   ") =
      .error ("custom command has empty executable") ∧
    parse_command_parts ("") =
      .error ("custom command has empty executable") ∧
    (∀ raw e, parse_command_parts raw = .error e →
      e = ("custom command has unmatched quote") ∨
      e = ("custom command has trailing escape") ∨
      e = ("custom command has empty executable")) :=
  ⟨rfl, rfl, rfl, rfl, rfl, rfl,
    fun raw e h => parse_command_parts_aux_error_cases raw.data none [] [] e h⟩

/-- Witness for C3, discharging the hypothesis of its final conjunct at
a concrete erroneous input. -/
theorem c3_witness :
    parse_command_parts ("cmd " ++ squoteStr ++ ("oops")) =
      .error ("custom command has unmatched quote") ∧
    (("custom command has unmatched quote") = ("custom command has unmatched quote") ∨
      ("custom command has unmatched quote") = ("custom command has trailing escape") ∨
      ("custom command has unmatched quote") = ("custom command has empty executable")) :=
  ⟨rfl, c3_parse_command_parts_spec.2.2.2.2.2.2 ("cmd " ++ squoteStr ++ ("oops"))
    ("custom command has unmatched quote") rfl⟩

/-! ## Claim C2 -/

/-- C2 (amended: restricted to revision lists whose revision numbers are
pairwise distinct, which the counterexample shows is necessary): the
graph merge overlays matched graph prefixes onto revisions in the graph
rows order, de-duplicating graph rows by revision number; appends every
revision absent from the graph output afterward, preserving its original
relative order; returns the revision list unchanged when graph parsing
yields zero rows; and on the example of revisions 7, 8, 9 with rows for
9 and 8 produces merged order 9, 8, 7 with the expected prefixes. -/
theorem c2_merge_log_graph_amended (revisions : List Revision)
    (rows : List ParsedGraphRow)
    (hnd : (revisions.map (fun r => r.rev)).Nodup) :
    (merge_log_graph revisions rows
      = (rowsDedup [] rows).filterMap
          (fun row => (revisions.find? (fun r => r.rev == row.rev)).map
            (fun r => { r with graph_pfx := some row.graph_pfx }))
        ++ revisions.filter
            (fun r => !(rows.any (fun row => row.rev == r.rev)))) ∧
    (rows = [] → merge_log_graph revisions rows = revisions) ∧
    merge_log_graph c2ExampleRevisions c2ExampleRows = c2ExampleMerged := by
  refine ⟨?_, ?_, by decide⟩
  · by_cases hrows : rows.isEmpty
    · have hnil : rows = [] := by
        cases rows with
        | nil => rfl
        | cons a l => simp [List.isEmpty] at hrows
      subst hnil
      simp [merge_log_graph, rowsDedup]
    · have hb : rows.isEmpty = false := by
        cases rows with
        | nil => simp at hrows
        | cons a l => rfl
      simp only [merge_log_graph, hb, Bool.false_eq_true, if_false]
      have hknd : (mapKeys (buildRevMap revisions)).Nodup := by
        rw [mapKeys_buildRevMap revisions hnd]
        exact hnd
      obtain ⟨g1, g2, _, _⟩ := graphPass_spec rows [] (buildRevMap revisions) hknd
      have hlook : ∀ k, mapLookup k (buildRevMap revisions)
          = revisions.find? (fun r => r.rev == k) := by
        intro k
        rw [buildRevMap_eq revisions hnd, lookup_map_pair]
      rw [g1]
      congr 1
      · apply filterMap_congr_easyhg
        intro row2 _
        rw [hlook]
      · rw [appendPass_filterMap _ _ hnd]
        have hl2 : ∀ k, mapLookup k (graphPass rows [] (buildRevMap revisions)).2
            = if k ∈ (rowsDedup [] rows).map (fun row => row.rev) then none
              else revisions.find? (fun r => r.rev == k) := by
          intro k
          rw [g2 k, hlook]
        rw [filterMap_congr_easyhg _ _ _ (fun k _ => hl2 k)]
        rw [List.filterMap_map]
        have hpt : ∀ r ∈ revisions,
            ((fun k =>
                if k ∈ (rowsDedup [] rows).map (fun row => row.rev) then none
                else revisions.find? (fun x => x.rev == k))
              ∘ (fun r => r.rev)) r
            = if rows.any (fun row => row.rev == r.rev) then none else some r := by
          intro r hr
          simp only [Function.comp]
          have hmem : r.rev ∈ (rowsDedup [] rows).map (fun row => row.rev)
              ↔ rows.any (fun row => row.rev == r.rev) = true := by
            rw [rowsDedup_rev_mem]
            simp [List.any_eq_true, List.mem_map]
          by_cases hc : rows.any (fun row => row.rev == r.rev)
          · rw [if_pos (hmem.2 hc), if_pos hc]
          · rw [if_neg (fun hh => hc (hmem.1 hh)), if_neg hc,
              find_self_of_nodup revisions hnd r hr]
        rw [filterMap_congr_easyhg _ _ _ hpt]
        exact filterMap_ite_filter _ _
  · intro hnil
    subst hnil
    simp [merge_log_graph]

/-- The first revision of the C2 counterexample: number 7, content id a. -/
def c2CexRevA : Revision := c2Rev 7 ("a")

/-- The second revision of the C2 counterexample: number 7, content id b. -/
def c2CexRevB : Revision := c2Rev 7 ("b")

/-- The single graph row of the C2 counterexample, for revision 8. -/
def c2CexRow : ParsedGraphRow := { rev := 8, graph_pfx := "o" }

/-- Counterexample to C2 as stated: with two distinct input revisions
sharing revision number 7 and one graph row for revision 8, revision A
is in the input, its revision number is absent from the graph rows, yet
the merge output omits it entirely instead of appending it, so the merge
does not append every revision absent from the graph output. -/
theorem c2_counterexample :
    merge_log_graph [c2CexRevA, c2CexRevB] [c2CexRow] = [c2CexRevB] ∧
    c2CexRevA ∈ [c2CexRevA, c2CexRevB] ∧
    c2CexRevA.rev ∉ [c2CexRow].map (fun row => row.rev) ∧
    c2CexRevA ∉ merge_log_graph [c2CexRevA, c2CexRevB] [c2CexRow] := by
  decide

/-- Witness for C2 at the specification example, discharging the
distinctness hypothesis there. -/
theorem c2_witness :
    (c2ExampleRevisions.map (fun r => r.rev)).Nodup ∧
    merge_log_graph c2ExampleRevisions c2ExampleRows = c2ExampleMerged :=
  ⟨by decide,
    (c2_merge_log_graph_amended c2ExampleRevisions c2ExampleRows (by decide)).2.2⟩

/-! ## Claim C9 -/

/-- C9: for every input revision list whose revision numbers are
pairwise distinct and every list of graph rows, the graph merge returns
a permutation of the input revisions: with the graph prefix field
forgotten on both sides, output and input agree as multisets, so no
revision is dropped, added or duplicated, and each output revision
differs from its input counterpart at most in the graph prefix field. -/
theorem c9_merge_log_graph_perm (revisions : List Revision)
    (rows : List ParsedGraphRow)
    (hnd : (revisions.map (fun r => r.rev)).Nodup) :
    ((merge_log_graph revisions rows).map clearPfx).Perm
      (revisions.map clearPfx) := by
  by_cases hrows : rows.isEmpty
  · simp [merge_log_graph, hrows]
  · have hb : rows.isEmpty = false := by
      cases rows with
      | nil => simp at hrows
      | cons a l => rfl
    simp only [merge_log_graph, hb, Bool.false_eq_true, if_false]
    have hknd : (mapKeys (buildRevMap revisions)).Nodup := by
      rw [mapKeys_buildRevMap revisions hnd]
      exact hnd
    obtain ⟨_, _, g3, g4⟩ := graphPass_spec rows [] (buildRevMap revisions) hknd
    have hsub : ∀ j ∈ mapKeys (graphPass rows [] (buildRevMap revisions)).2,
        j ∈ revisions.map (fun r => r.rev) := by
      intro j hj
      have := g4 j hj
      rwa [mapKeys_buildRevMap revisions hnd] at this
    have happ := appendPass_perm (revisions.map (fun r => r.rev))
      (graphPass rows [] (buildRevMap revisions)).2 hnd g3 hsub
    have h2 := graphPass_perm rows [] (buildRevMap revisions)
    have hvals : (buildRevMap revisions).map (fun p => clearPfx p.2)
        = revisions.map clearPfx := by
      rw [buildRevMap_eq revisions hnd]
      simp [List.map_map, Function.comp]
    rw [hvals] at h2
    have happc : ((appendPass (revisions.map (fun r => r.rev))
          (graphPass rows [] (buildRevMap revisions)).2).map clearPfx).Perm
        ((graphPass rows [] (buildRevMap revisions)).2.map
          (fun p => clearPfx p.2)) := by
      have := happ.map clearPfx
      simpa [List.map_map, Function.comp] using this
    rw [List.map_append]
    exact (List.Perm.append_left _ happc).trans h2

/-- Witness for C9 at the specification example. -/
theorem c9_witness :
    (c2ExampleRevisions.map (fun r => r.rev)).Nodup ∧
    ((merge_log_graph c2ExampleRevisions c2ExampleRows).map clearPfx).Perm
      (c2ExampleRevisions.map clearPfx) :=
  ⟨by decide, c9_merge_log_graph_perm c2ExampleRevisions c2ExampleRows (by decide)⟩

/-! ## Claim C1 -/

theorem length_filter_not_add (l : List ConflictEntry) :
    (l.filter (fun entry => !entry.resolved)).length
      + (l.filter (fun entry => entry.resolved)).length = l.length := by
  induction l with
  | nil => rfl
  | cons a l ih =>
    by_cases h : a.resolved
    · simp only [List.filter_cons, h]
      simp
      omega
    · simp only [List.filter_cons, h]
      simp [h]
      omega

/-- C1: every snapshot returned successfully by refresh_snapshot carries
a derived rebase state whose in_progress flag equals the presence of the
fixed rebasestate marker path under the repository metadata directory of
the snapshot root, and whose unresolved, resolved and total conflict
counts partition the parsed conflict list stored in the snapshot on its
resolved flag, with unresolved plus resolved equal to total equal to the
length of the conflict list. -/
theorem c1_refresh_rebase_state (env : RefreshEnv) (options : SnapshotOptions)
    (snap : RepoSnapshot) (h : refresh_snapshot env options = .ok snap) :
    (∃ rr, snap.repo_root = some rr ∧
      snap.rebase.in_progress = env.pathExists (rr ++ ("/.hg/rebasestate"))) ∧
    snap.rebase.unresolved_conflicts
      = (snap.conflicts.filter (fun entry => !entry.resolved)).length ∧
    snap.rebase.resolved_conflicts
      = (snap.conflicts.filter (fun entry => entry.resolved)).length ∧
    snap.rebase.total_conflicts = snap.conflicts.length ∧
    snap.rebase.unresolved_conflicts + snap.rebase.resolved_conflicts
      = snap.rebase.total_conflicts := by
  unfold refresh_snapshot at h
  split at h
  · simp at h
  · split at h
    · simp at h
    · split at h
      · simp at h
      · split at h
        · simp at h
        · split at h
          · simp at h
          · split at h
            · simp at h
            · split at h
              · simp at h
              · injection h with h2
                subst h2
                refine ⟨⟨_, rfl, rfl⟩, rfl, rfl, rfl, ?_⟩
                exact length_filter_not_add _

/-- A concrete environment in which refresh_snapshot succeeds: no
structured-output support, no shelve extension, one unresolved and one
resolved conflict, and a marker file present under the metadata path. -/
def c1WitnessEnv : RefreshEnv :=
  { caps :=
      { version := "hg 6.9", has_rebase := true, has_histedit := true,
        has_shelve := false, supports_json_status := false,
        supports_json_log := false, supports_json_bookmarks := false },
    runHg := fun args =>
      if args = [("root")] then
        .ok { command_preview := "hg root", success := true,
              stdout := "/repo\n", stderr := "" }
      else if args = [("branch")] then
        .ok { command_preview := "hg branch", success := true,
              stdout := "default\n", stderr := "" }
      else if args = [("status")] then
        .ok { command_preview := "hg status", success := true,
              stdout := "M src/main.rs\n", stderr := "" }
      else if args = [("bookmarks")] then
        .ok { command_preview := "hg bookmarks", success := true,
              stdout := " * main                     7:abc123\n", stderr := "" }
      else if args = [("resolve"), ("-l")] then
        .ok { command_preview := "hg resolve -l", success := true,
              stdout := "U src/main.rs\nR README.md\n", stderr := "" }
      else
        .ok { command_preview := "hg", success := true, stdout := "", stderr := "" },
    pathExists := fun path => path == ("/repo/.hg/rebasestate"),
    parseStatusJson := fun _ => .error ("unused"),
    parseLogJson := fun _ => .error ("unused"),
    parseBookmarksJson := fun _ => .error ("unused") }

/-- The options of the C1 witness refresh: a lightweight refresh. -/
def c1WitnessOptions : SnapshotOptions :=
  { revision_limit := 30, include_revisions := false }

/-- The snapshot the witness environment produces. -/
def c1WitnessSnap : RepoSnapshot :=
  { repo_root := some ("/repo"),
    branch := some ("default"),
    files := [{ path := "src/main.rs", status := FileStatus.Modified }],
    revisions := [],
    bookmarks := [{ name := "main", rev := 7, node := "abc123", active := true }],
    shelves := [],
    conflicts := [{ resolved := false, path := "src/main.rs" },
                  { resolved := true, path := "README.md" }],
    rebase := { in_progress := true, unresolved_conflicts := 1,
                resolved_conflicts := 1, total_conflicts := 2 },
    capabilities := c1WitnessEnv.caps }

/-- Witness for C1: the concrete refresh succeeds and the theorem
applies to it. -/
theorem c1_witness :
    refresh_snapshot c1WitnessEnv c1WitnessOptions = .ok c1WitnessSnap ∧
    ((∃ rr, c1WitnessSnap.repo_root = some rr ∧
        c1WitnessSnap.rebase.in_progress
          = c1WitnessEnv.pathExists (rr ++ ("/.hg/rebasestate"))) ∧
      c1WitnessSnap.rebase.unresolved_conflicts
        = (c1WitnessSnap.conflicts.filter (fun entry => !entry.resolved)).length ∧
      c1WitnessSnap.rebase.resolved_conflicts
        = (c1WitnessSnap.conflicts.filter (fun entry => entry.resolved)).length ∧
      c1WitnessSnap.rebase.total_conflicts = c1WitnessSnap.conflicts.length ∧
      c1WitnessSnap.rebase.unresolved_conflicts
          + c1WitnessSnap.rebase.resolved_conflicts
        = c1WitnessSnap.rebase.total_conflicts) :=
  ⟨by rfl, c1_refresh_rebase_state c1WitnessEnv c1WitnessOptions c1WitnessSnap (by rfl)⟩

/-! ## Claim C7 -/

theorem set_panel_index_snapshot (s : App) (panel : FocusPanel) (i : Nat) :
    (s.set_panel_index panel i).snapshot = s.snapshot := by
  cases panel <;> rfl

theorem set_panel_offset_snapshot (s : App) (panel : FocusPanel) (o : Nat) :
    (s.set_panel_offset panel o).snapshot = s.snapshot := by
  cases panel <;> rfl

theorem ensure_visible_snapshot (s : App) (panel : FocusPanel) :
    (s.ensure_visible panel).snapshot = s.snapshot := by
  unfold App.ensure_visible
  split
  · rfl
  · simp only [apply_ite App.snapshot, set_panel_index_snapshot,
      set_panel_offset_snapshot, ite_self]

theorem adjust_indexes_snapshot (s : App) :
    (s.adjust_indexes).snapshot = s.snapshot := by
  unfold App.adjust_indexes
  simp only [ensure_visible_snapshot, apply_ite App.snapshot, ite_self]

theorem append_log_snapshot (s : App) (line : String) :
    (s.append_log line).snapshot = s.snapshot := rfl

theorem refresh_detail_fst_snapshot (s : App) :
    ((s.refresh_detail_for_focus).1).snapshot = s.snapshot := by
  unfold App.refresh_detail_for_focus
  cases hf : s.focus <;> simp only [hf] <;>
    first
      | rfl
      | (cases hg : s.snapshot.files.get? s.files_idx <;> simp only [hg])
      | (cases hg : s.snapshot.revisions.get? s.rev_idx <;> simp only [hg])

theorem update_rebase_hint_log_snapshot (s : App) (hint : Option String) :
    (s.update_rebase_hint_log hint).snapshot = s.snapshot := by
  unfold App.update_rebase_hint_log
  split
  · cases hint <;> rfl
  · rfl

theorem refresh_rebase_status_hint_snapshot (s : App) :
    (s.refresh_rebase_status_hint_from_snapshot).snapshot = s.snapshot := by
  unfold App.refresh_rebase_status_hint_from_snapshot
  rcases h : s.rebase_status_hint_from_snapshot with _ | line <;>
    simp only [h, update_rebase_hint_log_snapshot, apply_ite App.snapshot,
      append_log_snapshot, ite_self]

theorem clear_vanished_rebase_source_snapshot (s : App) :
    (s.clear_vanished_rebase_source).snapshot = s.snapshot := by
  unfold App.clear_vanished_rebase_source
  rcases h : s.pending_rebase_source with _ | src <;>
    simp only [h, apply_ite App.snapshot, append_log_snapshot, ite_self]

theorem apply_graph_warning_snapshot (s : App) (include_revisions : Bool) :
    (s.apply_graph_warning include_revisions).snapshot = s.snapshot := by
  unfold App.apply_graph_warning
  simp only [apply_ite App.snapshot, append_log_snapshot, ite_self]

theorem apply_rebase_notice_snapshot (s : App) :
    (s.apply_rebase_notice).snapshot = s.snapshot := by
  unfold App.apply_rebase_notice
  simp only [apply_ite App.snapshot, append_log_snapshot, ite_self]

/-- Applying a successfully completed lightweight snapshot stores the
incoming snapshot with the previous revision list substituted in. -/
theorem handle_snapshot_loaded_lightweight (s : App) (preserve : Bool)
    (incoming : RepoSnapshot) :
    (s.handle_app_event (.SnapshotLoaded preserve false (.ok incoming))).snapshot
      = { incoming with revisions := s.snapshot.revisions } := by
  unfold App.handle_app_event
  simp only [append_log_snapshot, refresh_rebase_status_hint_snapshot,
    apply_ite App.snapshot, refresh_detail_fst_snapshot, apply_rebase_notice_snapshot,
    clear_vanished_rebase_source_snapshot, apply_graph_warning_snapshot,
    adjust_indexes_snapshot, ite_self, Bool.not_false, if_true]

/-- C7: a refresh performed with include_revisions false yields a
snapshot with an empty revision list from the assembler, and when the
session applies a completed lightweight snapshot, the resulting session
snapshot keeps the prior revision list while every other snapshot field
comes from the new snapshot. -/
theorem c7_lightweight_refresh :
    (∀ (env : RefreshEnv) (options : SnapshotOptions) (snap : RepoSnapshot),
      options.include_revisions = false →
      refresh_snapshot env options = .ok snap → snap.revisions = []) ∧
    (∀ (s : App) (preserve : Bool) (incoming : RepoSnapshot),
      (s.handle_app_event
          (.SnapshotLoaded preserve false (.ok incoming))).snapshot
        = { incoming with revisions := s.snapshot.revisions }) := by
  constructor
  · intro env options snap hinc h
    have hrev : revisionsFrom env options = .ok [] := by
      simp [revisionsFrom, hinc]
    unfold refresh_snapshot at h
    rw [hrev] at h
    split at h
    · simp at h
    · split at h
      · simp at h
      · split at h
        · simp at h
        · split at h
          · simp at h
          · split at h
            · simp at h
            · split at h
              · simp at h
              · split at h
                · simp at h
                · injection h with h2
                  subst h2
                  simp_all
  · intro s preserve incoming
    exact handle_snapshot_loaded_lightweight s preserve incoming

/-- Witness for C7, discharging its hypotheses with the concrete
lightweight refresh of the C1 witness environment. -/
theorem c7_witness :
    c1WitnessOptions.include_revisions = false ∧
    refresh_snapshot c1WitnessEnv c1WitnessOptions = .ok c1WitnessSnap ∧
    c1WitnessSnap.revisions = [] :=
  ⟨by rfl, by rfl,
    c7_lightweight_refresh.1 c1WitnessEnv c1WitnessOptions c1WitnessSnap
      (by rfl) (by rfl)⟩


/-! ## Claim C4 -/

/-- Pushing a batch of names with a containment guard collects exactly
the union of the start list and the batch. -/
theorem mem_push_name_foldl (names : List String) (u : List String) (x : String) :
    x ∈ names.foldl
        (fun unresolved name =>
          if unresolved.contains name then unresolved else unresolved ++ [name]) u
      ↔ x ∈ u ∨ x ∈ names := by
  induction names generalizing u with
  | nil => simp
  | cons n ns ih =>
    rw [List.foldl_cons]
    by_cases h : u.contains n = true
    · rw [if_pos h, ih]
      have hn : n ∈ u := by simpa using h
      constructor
      · rintro (hx | hx)
        · exact Or.inl hx
        · exact Or.inr (List.mem_cons_of_mem _ hx)
      · rintro (hx | hx)
        · exact Or.inl hx
        · rcases List.mem_cons.1 hx with rfl | hx
          · exact Or.inl hn
          · exact Or.inr hx
    · rw [if_neg h, ih]
      simp only [List.mem_append, List.mem_cons, List.not_mem_nil, or_false]
      exact or_assoc

/-- The containment-guarded push keeps the collected list free of
duplicates. -/
theorem nodup_push_name_foldl (names : List String) (u : List String)
    (hu : u.Nodup) :
    (names.foldl
        (fun unresolved name =>
          if unresolved.contains name then unresolved else unresolved ++ [name])
        u).Nodup := by
  induction names generalizing u with
  | nil => simpa
  | cons n ns ih =>
    rw [List.foldl_cons]
    by_cases h : u.contains n = true
    · rw [if_pos h]
      exact ih u hu
    · rw [if_neg h]
      apply ih
      have hn : n ∉ u := by simpa using h
      simp [List.nodup_append, hn, hu]

/-- The collection loop gathers exactly the start list together with the
unresolved names of every remaining template piece. -/
theorem mem_collect_extra_unresolved (vars : List (String × String))
    (raws : List String) (u : List String) (x : String) :
    x ∈ collect_extra_unresolved vars raws u
      ↔ x ∈ u ∨ ∃ raw ∈ raws, x ∈ unresolved_template_vars raw vars := by
  induction raws generalizing u with
  | nil => simp [collect_extra_unresolved]
  | cons r rs ih =>
    have hstep : collect_extra_unresolved vars (r :: rs) u
        = collect_extra_unresolved vars rs
            ((unresolved_template_vars r vars).foldl
              (fun unresolved name =>
                if unresolved.contains name then unresolved
                else unresolved ++ [name]) u) := rfl
    rw [hstep, ih, mem_push_name_foldl]
    constructor
    · rintro ((hx | hx) | ⟨raw, hr, hx⟩)
      · exact Or.inl hx
      · exact Or.inr ⟨r, List.mem_cons_self _ _, hx⟩
      · exact Or.inr ⟨raw, List.mem_cons_of_mem _ hr, hx⟩
    · rintro (hx | ⟨raw, hr, hx⟩)
      · exact Or.inl (Or.inl hx)
      · rcases List.mem_cons.1 hr with rfl | hr
        · exact Or.inl (Or.inr hx)
        · exact Or.inr ⟨raw, hr, hx⟩

/-- The collection loop keeps the collected list free of duplicates. -/
theorem nodup_collect_extra_unresolved (vars : List (String × String))
    (raws : List String) (u : List String) (hu : u.Nodup) :
    (collect_extra_unresolved vars raws u).Nodup := by
  induction raws generalizing u with
  | nil => simpa [collect_extra_unresolved]
  | cons r rs ih => exact ih _ (nodup_push_name_foldl _ _ hu)

/-- The template scanner emits no name it has already seen, and emits
each name at most once. -/
theorem template_vars_go_nodup (cs : List Char) :
    ∀ st seen, (∀ x ∈ template_vars_go cs st seen, x ∉ seen) ∧
      (template_vars_go cs st seen).Nodup := by
  induction cs with
  | nil =>
    intro st seen
    simp [template_vars_go]
  | cons c cs ih =>
    intro st seen
    match st with
    | none =>
      simp only [template_vars_go]
      split_ifs with h
      · exact ih _ _
      · exact ih _ _
    | some acc =>
      simp only [template_vars_go]
      split_ifs with h1 h2
      · constructor
        · intro x hx hxseen
          rcases List.mem_cons.1 hx with rfl | hx
          · rw [Bool.and_eq_true] at h2
            have hns : String.mk acc ∉ seen := by simpa using h2.2
            exact hns hxseen
          · exact (ih none (String.mk acc :: seen)).1 x hx
              (List.mem_cons_of_mem _ hxseen)
        · refine List.nodup_cons.2 ⟨?_, (ih none _).2⟩
          intro hmem
          exact (ih none _).1 _ hmem (List.mem_cons_self _ _)
      · exact ih _ _
      · exact ih _ _

/-- The placeholder names of a raw string are pairwise distinct. -/
theorem template_vars_nodup (raw : String) : (template_vars raw).Nodup :=
  (template_vars_go_nodup raw.data none []).2

/-- The unresolved placeholder names of a raw string are pairwise
distinct. -/
theorem unresolved_template_vars_nodup (raw : String)
    (vars : List (String × String)) :
    (unresolved_template_vars raw vars).Nodup :=
  (template_vars_nodup raw).filter _

/-- C4: when the template variables build and the command line tokenizes
but some placeholder of the program, base arguments, declared arguments
or environment values does not resolve against the template variables,
preparation returns an error (so no substituted invocation is produced)
whose listed names are sorted, pairwise distinct, and exactly the
unresolved placeholder names of all those pieces. -/
theorem c4_custom_command_unresolved (s : App) (command : CustomCommand)
    (tvars : List (String × String)) (program_raw : String)
    (base_args_raw : List String)
    (h1 : s.custom_template_vars command = .ok tvars)
    (h2 : parse_command_parts command.command = .ok (program_raw, base_args_raw))
    (hne : ∃ raw ∈ program_raw ::
        (base_args_raw ++ command.args ++ command.env.map (fun p => p.2)),
      ∃ name, name ∈ unresolved_template_vars raw tvars) :
    ∃ L : List String,
      s.prepare_custom_run_action command
        = .error ("custom command " ++ squoteStr ++ command.id ++ squoteStr
            ++ " requires unavailable template vars: " ++ strJoin (", ") L) ∧
      List.Sorted (fun a b => a ≤ b) L ∧ L.Nodup ∧
      (∀ name, name ∈ L ↔ ∃ raw ∈ program_raw ::
          (base_args_raw ++ command.args ++ command.env.map (fun p => p.2)),
        name ∈ unresolved_template_vars raw tvars) := by
  have hmemU : ∀ x, x ∈ collect_extra_unresolved tvars
        (base_args_raw ++ command.args ++ command.env.map (fun p => p.2))
        (unresolved_template_vars program_raw tvars)
      ↔ ∃ raw ∈ program_raw ::
          (base_args_raw ++ command.args ++ command.env.map (fun p => p.2)),
        x ∈ unresolved_template_vars raw tvars := by
    intro x
    rw [mem_collect_extra_unresolved]
    constructor
    · rintro (hx | ⟨raw, hr, hx⟩)
      · exact ⟨program_raw, List.mem_cons_self _ _, hx⟩
      · exact ⟨raw, List.mem_cons_of_mem _ hr, hx⟩
    · rintro ⟨raw, hr, hx⟩
      rcases List.mem_cons.1 hr with rfl | hr
      · exact Or.inl hx
      · exact Or.inr ⟨raw, hr, hx⟩
  have hne2 : (collect_extra_unresolved tvars
      (base_args_raw ++ command.args ++ command.env.map (fun p => p.2))
      (unresolved_template_vars program_raw tvars)).isEmpty = false := by
    obtain ⟨raw, hraw, name, hname⟩ := hne
    have hmem := (hmemU name).2 ⟨raw, hraw, hname⟩
    rcases hcase : collect_extra_unresolved tvars
        (base_args_raw ++ command.args ++ command.env.map (fun p => p.2))
        (unresolved_template_vars program_raw tvars) with _ | ⟨a, l⟩
    · rw [hcase] at hmem
      simp at hmem
    · rfl
  refine ⟨sortStrings (collect_extra_unresolved tvars
      (base_args_raw ++ command.args ++ command.env.map (fun p => p.2))
      (unresolved_template_vars program_raw tvars)), ?_, ?_, ?_, ?_⟩
  · unfold App.prepare_custom_run_action
    rw [h1, h2]
    simp only [hne2, Bool.not_false, if_true]
  · exact List.sorted_insertionSort _ _
  · exact (List.perm_insertionSort _ _).nodup_iff.2
      (nodup_collect_extra_unresolved _ _ _
        (unresolved_template_vars_nodup _ _))
  · intro name
    rw [show sortStrings (collect_extra_unresolved tvars
        (base_args_raw ++ command.args ++ command.env.map (fun p => p.2))
        (unresolved_template_vars program_raw tvars))
      = List.insertionSort (fun a b => a ≤ b)
          (collect_extra_unresolved tvars
            (base_args_raw ++ command.args ++ command.env.map (fun p => p.2))
            (unresolved_template_vars program_raw tvars)) from rfl,
      (List.perm_insertionSort _ _).mem_iff]
    exact hmemU name

/-- A session in repo context with a repository root, no file entries
and the viewed revision selected: the file placeholder has no binding. -/
def c4State : App :=
  { c5WitnessState with pending_rebase_source := none }

/-- A repo-context custom command whose command line uses the file
placeholder. -/
def c4Command : CustomCommand :=
  { id := "view", title := "View file", context := .Repo,
    command := "view \x7bfile\x7d", args := [], env := [],
    show_output := true, needs_confirmation := false }

/-- The template variables the C4 witness session builds: repo root and
branch, plus the viewed-revision fallback entries. -/
def c4Tvars : List (String × String) :=
  [("repo_root", "/repo"), ("branch", "default"),
   ("rev", "18"), ("node", "n18")]

/-- Witness for C4: the witness session builds its template variables
and tokenizes the command, the file placeholder is unresolved, and the
theorem applies, rejecting the command with file among the listed
names. -/
theorem c4_witness :
    c4State.custom_template_vars c4Command = .ok c4Tvars ∧
    parse_command_parts c4Command.command = .ok (("view"), ["\x7bfile\x7d"]) ∧
    (∃ L : List String,
      c4State.prepare_custom_run_action c4Command
        = .error ("custom command " ++ squoteStr ++ c4Command.id ++ squoteStr
            ++ " requires unavailable template vars: " ++ strJoin (", ") L) ∧
      List.Sorted (fun a b => a ≤ b) L ∧ L.Nodup ∧
      (∀ name, name ∈ L ↔ ∃ raw ∈ ("view") ::
          (["\x7bfile\x7d"] ++ c4Command.args
            ++ c4Command.env.map (fun p => p.2)),
        name ∈ unresolved_template_vars raw c4Tvars)) :=
  ⟨by rfl, by rfl,
    c4_custom_command_unresolved c4State c4Command c4Tvars ("view")
      ["\x7bfile\x7d"] (by rfl) (by rfl)
      ⟨"\x7bfile\x7d", by simp, ("file"), by decide⟩⟩


end EasyHg
